import Mathlib

/-!
Verification development for the Cosmos+ OpenSSD garbage-collection module
(`garbage_collection_greedy.c`, `garbage_collection_cost_benefit.c`,
`garbage_collection_CAT_reverse.c`, `garbage_collection.h`).

The GC keeps, per die, an array of doubly-linked candidate lists (one bucket
per invalid-slice count), intrusively linked through per-block `prevBlock` /
`nextBlock` fields.  Three victim-selection policies (Greedy, Cost-Benefit,
CAT) share this index.  All operations of one die are embedded below as pure
functions on an explicit state; machine integers are `Nat` with explicit
reductions modulo `2^32` / `2^64` where C overflow semantics matter.
-/

namespace GcModel

/-- The modulus 2^32 of C `unsigned int` / `uint32_t` arithmetic. -/
def U32 : Nat := 4294967296

/-- The modulus 2^64 of C `uint64_t` arithmetic. -/
def U64 : Nat := 18446744073709551616

/-- Modelled from the spec: `BLOCK_NONE` is the distinguished sentinel stored in
the 16-bit `headBlock`/`tailBlock`/`prevBlock`/`nextBlock` fields denoting the
absence of a block (the constant itself lives in `memory_map.h`, which is not
part of the sources; only its distinguishedness matters). -/
def BLOCK_NONE : Nat := 65535

/-- Modelled from the spec: `BLOCK_FAIL` is the sentinel returned by
`GetFromGcVictimList` when no victim is selected (defined outside the given
sources; only its distinguishedness matters). -/
def BLOCK_FAIL : Nat := 65534

/-- Modelled from the spec: `LSA_NONE` is the sentinel meaning an unmapped
logical slice address (defined outside the given sources). -/
def LSA_NONE : Nat := 4294967295

/-- Unsigned 32-bit subtraction `a - b` (C `unsigned int` semantics). -/
def usub32 (a b : Nat) : Nat := (a % U32 + U32 - b % U32) % U32

/-- Per-block state: the fields of `virtualBlockMapPtr->block[die][blockNo]`
the GC reads or writes (`invalidSliceCnt`, `eraseCnt`, and the intrusive
`prevBlock`/`nextBlock` links). -/
structure Block where
  invalidSliceCnt : Nat
  eraseCnt : Nat
  prevBlock : Nat
  nextBlock : Nat
deriving DecidableEq

/-- The GC-relevant state of one die: the victim-list bucket heads and tails
(`gcVictimMapPtr->gcVictimList[die][k]`), the block map, the logical activity
clock `gcActivityTick`, and the per-block age table (`gcLastEraseTick` for the
Cost-Benefit build, `gcLastInvalidTick` for the CAT build; each build has
exactly one such table, modelled by the single field `gcLastTick`).
`slicesPerBlock` is `SLICES_PER_BLOCK`, `pagesPerBlock` is
`USER_PAGES_PER_BLOCK`, `numBlocks` is `USER_BLOCKS_PER_DIE`. -/
structure GcState where
  slicesPerBlock : Nat
  pagesPerBlock : Nat
  numBlocks : Nat
  blocks : Nat → Block
  headBlock : Nat → Nat
  tailBlock : Nat → Nat
  gcActivityTick : Nat
  gcLastTick : Nat → Nat

/-- Update the block record of one block number. -/
def setBlk (s : GcState) (b : Nat) (f : Block → Block) : GcState :=
  { s with blocks := fun x => if x = b then f (s.blocks x) else s.blocks x }

/-- Update the head of one bucket. -/
def setHead (s : GcState) (k v : Nat) : GcState :=
  { s with headBlock := fun x => if x = k then v else s.headBlock x }

/-- Update the tail of one bucket. -/
def setTail (s : GcState) (k v : Nat) : GcState :=
  { s with tailBlock := fun x => if x = k then v else s.tailBlock x }

/-- The list-insertion body shared verbatim by all three builds of
`PutToGcVictimList`: append `blockNo` at the tail of bucket
`invalidSliceCnt`. -/
def listInsert (s : GcState) (blockNo invalidSliceCnt : Nat) : GcState :=
  if s.tailBlock invalidSliceCnt ≠ BLOCK_NONE then
    let t := s.tailBlock invalidSliceCnt
    setTail
      (setBlk
        (setBlk s blockNo (fun bl => { bl with prevBlock := t, nextBlock := BLOCK_NONE }))
        t (fun bl => { bl with nextBlock := blockNo }))
      invalidSliceCnt blockNo
  else
    setTail
      (setHead
        (setBlk s blockNo (fun bl => { bl with prevBlock := BLOCK_NONE, nextBlock := BLOCK_NONE }))
        invalidSliceCnt blockNo)
      invalidSliceCnt blockNo

/-- Function `PutToGcVictimList` of `garbage_collection_greedy.c`: plain list insert,
no clock. -/
def putToGcVictimList (s : GcState) (blockNo invalidSliceCnt : Nat) : GcState :=
  listInsert s blockNo invalidSliceCnt

/-- Function `PutToGcVictimList` of `garbage_collection_cost_benefit.c`: bump
`gcActivityTick` (32-bit increment) iff `invalidSliceCnt` is non-zero, then
insert. -/
def cbPutToGcVictimList (s : GcState) (blockNo invalidSliceCnt : Nat) : GcState :=
  let s1 := if invalidSliceCnt ≠ 0 then
              { s with gcActivityTick := (s.gcActivityTick + 1) % U32 }
            else s
  listInsert s1 blockNo invalidSliceCnt

/-- Function `PutToGcVictimList` of `garbage_collection_CAT_reverse.c`: bump the tick
and record it in `gcLastInvalidTick[blockNo]` iff `invalidSliceCnt` is
non-zero, then insert. -/
def catPutToGcVictimList (s : GcState) (blockNo invalidSliceCnt : Nat) : GcState :=
  let s1 := if invalidSliceCnt ≠ 0 then
              let t := (s.gcActivityTick + 1) % U32
              { s with gcActivityTick := t,
                       gcLastTick := fun x => if x = blockNo then t else s.gcLastTick x }
            else s
  listInsert s1 blockNo invalidSliceCnt

/-- Function `SelectiveGetFromGcVictimList` (identical in all three builds): unlink
`blockNo` from the bucket given by its own `invalidSliceCnt`, with the four
cases interior / tail / head / singleton.  The detached block's own
`prevBlock`/`nextBlock` fields are NOT touched. -/
def selectiveGetFromGcVictimList (s : GcState) (blockNo : Nat) : GcState :=
  let nextB := (s.blocks blockNo).nextBlock
  let prevB := (s.blocks blockNo).prevBlock
  let cnt := (s.blocks blockNo).invalidSliceCnt
  if nextB ≠ BLOCK_NONE ∧ prevB ≠ BLOCK_NONE then
    setBlk (setBlk s prevB (fun bl => { bl with nextBlock := nextB }))
      nextB (fun bl => { bl with prevBlock := prevB })
  else if nextB = BLOCK_NONE ∧ prevB ≠ BLOCK_NONE then
    setTail (setBlk s prevB (fun bl => { bl with nextBlock := BLOCK_NONE })) cnt prevB
  else if nextB ≠ BLOCK_NONE ∧ prevB = BLOCK_NONE then
    setHead (setBlk s nextB (fun bl => { bl with prevBlock := BLOCK_NONE })) cnt nextB
  else
    setTail (setHead s cnt BLOCK_NONE) cnt BLOCK_NONE

/-- Function `DetachBlockFromGcList` (static helper of the Cost-Benefit and CAT builds):
`SelectiveGetFromGcVictimList` followed by clearing the detached block's own
`nextBlock` and `prevBlock` to `BLOCK_NONE`. -/
def detachBlockFromGcList (s : GcState) (blockNo : Nat) : GcState :=
  setBlk (setBlk (selectiveGetFromGcVictimList s blockNo)
      blockNo (fun bl => { bl with nextBlock := BLOCK_NONE }))
    blockNo (fun bl => { bl with prevBlock := BLOCK_NONE })

/-- Recursion of the Greedy `GetFromGcVictimList` bucket loop, scanning bucket
`k` down to bucket `1`.  Returns `(block, state, asserted)`, where `asserted`
records that the fatal `assert` at the end of the C function fired. -/
def greedyGetAux (s : GcState) : Nat → Nat × GcState × Bool
  | 0 => (BLOCK_FAIL, s, true)
  | k + 1 =>
    if s.headBlock (k + 1) ≠ BLOCK_NONE then
      let b := s.headBlock (k + 1)
      let nxt := (s.blocks b).nextBlock
      if nxt ≠ BLOCK_NONE then
        (b, setHead (setBlk s nxt (fun bl => { bl with prevBlock := BLOCK_NONE })) (k + 1) nxt,
         false)
      else
        (b, setTail (setHead s (k + 1) BLOCK_NONE) (k + 1) BLOCK_NONE, false)
    else greedyGetAux s k

/-- Function `GetFromGcVictimList` of `garbage_collection_greedy.c`: pop the head of the
highest-indexed non-empty bucket; the fatal assertion fires iff buckets
`SLICES_PER_BLOCK .. 1` are all empty. -/
def getFromGcVictimList (s : GcState) : Nat × GcState × Bool :=
  greedyGetAux s s.slicesPerBlock

/-- Fuel-bounded walk along `nextBlock` links starting at `b`
(the shallow embedding of the C `while (blockNo != BLOCK_NONE)` traversal;
any fuel at least the list length yields the whole list). -/
def walk (s : GcState) : Nat → Nat → List Nat
  | 0, _ => []
  | fuel + 1, b =>
    if b = BLOCK_NONE then [] else b :: walk s fuel ((s.blocks b).nextBlock)

/-- Bucket indices in descending scan order: `[S, S-1, ..., 1]`. -/
def bucketsDesc (S : Nat) : List Nat := (List.range S).reverse.map (· + 1)

/-- All candidate block numbers in the order the Cost-Benefit/CAT scan loop
visits them: buckets `S` down to `1`, head to tail within each. -/
def scanList (s : GcState) : List Nat :=
  (bucketsDesc s.slicesPerBlock).flatMap (fun k => walk s (s.numBlocks + 1) (s.headBlock k))

/-- Function `CalculateCostBenefitScore` of `garbage_collection_cost_benefit.c`:
`benefit = (uint64)I * (uint64)(A+1) * (uint64)P`, `cost = (uint64)(V+1)` with
the `+1`s and `V = P - I` computed in 32-bit unsigned arithmetic, returning
`(uint32)benefit` when `cost` or `benefit` is zero and
`(uint32)(benefit / cost)` otherwise. -/
def calculateCostBenefitScore (s : GcState) (blockNo : Nat) : Nat :=
  let invalidSlices := (s.blocks blockNo).invalidSliceCnt % U32
  let validSlices := usub32 s.pagesPerBlock invalidSlices
  let ageTicks := usub32 s.gcActivityTick (s.gcLastTick blockNo)
  let benefit := invalidSlices * ((ageTicks + 1) % U32) % U64 * (s.pagesPerBlock % U32) % U64
  let cost := (validSlices + 1) % U32
  if cost = 0 ∨ benefit = 0 then benefit % U32
  else benefit / cost % U32

/-- Function `CalculateCatScore` of `garbage_collection_CAT_reverse.c`:
`numerator = (uint64)(I+1) * (uint64)(A+1)`,
`denominator = (uint64)(V+1) * (uint64)(W+1)` with the `+1`s and `V = P - I`
in 32-bit unsigned arithmetic, returning `(uint32)numerator` when the
denominator is zero and `(uint32)(numerator / denominator)` otherwise. -/
def calculateCatScore (s : GcState) (blockNo : Nat) : Nat :=
  let invalidSlices := (s.blocks blockNo).invalidSliceCnt % U32
  let validSlices := usub32 s.pagesPerBlock invalidSlices
  let ageTicks := usub32 s.gcActivityTick (s.gcLastTick blockNo)
  let wearCount := (s.blocks blockNo).eraseCnt % U32
  let numerator := ((invalidSlices + 1) % U32) * ((ageTicks + 1) % U32) % U64
  let denominator := ((validSlices + 1) % U32) * ((wearCount + 1) % U32) % U64
  if denominator = 0 then numerator % U32
  else numerator / denominator % U32

/-- The best-candidate fold of the Cost-Benefit/CAT scan: starting from
`bestBlock = BLOCK_FAIL`, `bestScore = 0`, update both on strict `>`. -/
def bestScan (score : Nat → Nat) (cands : List Nat) : Nat × Nat :=
  cands.foldl (fun best b => if score b > best.2 then (b, score b) else best)
    (BLOCK_FAIL, 0)

/-- Function `GetFromGcVictimList` of `garbage_collection_cost_benefit.c`: scan all
candidates in descending bucket order maximising the Cost-Benefit score, then
detach the best block; the fatal assertion fires iff `bestBlock` stayed
`BLOCK_FAIL`. -/
def cbGetFromGcVictimList (s : GcState) : Nat × GcState × Bool :=
  let best := bestScan (calculateCostBenefitScore s) (scanList s)
  if best.1 ≠ BLOCK_FAIL then (best.1, detachBlockFromGcList s best.1, false)
  else (best.1, s, true)

/-- Function `GetFromGcVictimList` of `garbage_collection_CAT_reverse.c`: identical
control to the Cost-Benefit build with the CAT score. -/
def catGetFromGcVictimList (s : GcState) : Nat × GcState × Bool :=
  let best := bestScan (calculateCatScore s) (scanList s)
  if best.1 ≠ BLOCK_FAIL then (best.1, detachBlockFromGcList s best.1, false)
  else (best.1, s, true)

/-! ## Migration engine

`GarbageCollection`'s copy loop (identical in all three builds) is embedded as
a fold over the page numbers, threading the two mapping tables and emitting an
event trace.  The external collaborators (`Vorg2VsaTranslation`,
`FindFreeVirtualSliceForGc`) are oracles supplied in an environment; the
request-slot and temp-buffer allocators only matter through the events they
produce. -/

/-- The two mapping tables the migration reads and rewrites:
`virtualSliceMapPtr->virtualSlice[v].logicalSliceAddr` and
`logicalSliceMapPtr->logicalSlice[L].virtualSliceAddr`. -/
structure MapState where
  virtToLog : Nat → Nat
  logToVirt : Nat → Nat

/-- Oracle environment of one `GarbageCollection(die)` invocation. -/
structure GcEnv where
  pagesPerBlock : Nat
  slicesPerBlock : Nat
  vorg2VsaTranslation : Nat → Nat → Nat
  findFreeVirtualSliceForGc : Nat → Nat

/-- Observable events of one `GarbageCollection` invocation, in program
order: request-slot acquisition (`GetFromFreeReqQ`), temp-buffer acquisition
(`AllocateTempDataBuf`), READ/WRITE enqueue (`SelectLowLevelReqQ`), the two
mapping-table stores, and the final `EraseBlock`. -/
inductive Ev where
  | allocSlot
  | allocBuf
  | enqRead (v L : Nat)
  | enqWrite (d L : Nat)
  | mapL2V (L d : Nat)
  | mapV2L (d L : Nat)
  | eraseBlk (blockNo : Nat)
deriving DecidableEq

/-- The events of one live-page migration, in the order the C statements
execute: slot + buffer for the READ, READ enqueue, slot + buffer for the
WRITE, both mapping stores, then the WRITE enqueue. -/
def pageEvents (v L d : Nat) : List Ev :=
  [Ev.allocSlot, Ev.allocBuf, Ev.enqRead v L, Ev.allocSlot, Ev.allocBuf,
   Ev.mapL2V L d, Ev.mapV2L d L, Ev.enqWrite d L]

/-- Accumulator of the migration fold: mapping tables, emitted trace, and the
number of `FindFreeVirtualSliceForGc` calls made so far (indexing the
allocation oracle). -/
structure MigAcc where
  maps : MapState
  trace : List Ev
  allocCnt : Nat

/-- One iteration of the copy loop for `pageNo`: translate to the virtual
slice `v`, read `L = virt_to_log[v]`, and iff `L ≠ LSA_NONE` and
`log_to_virt[L] = v` (the liveness double check) acquire the resources, submit
READ and WRITE, and store `log_to_virt[L] := d`, `virt_to_log[d] := L` for the
freshly allocated destination `d`.  A page failing the check changes
nothing. -/
def gcPageStep (env : GcEnv) (victimBlockNo : Nat) (acc : MigAcc) (pageNo : Nat) : MigAcc :=
  let v := env.vorg2VsaTranslation victimBlockNo pageNo
  let L := acc.maps.virtToLog v
  if L ≠ LSA_NONE ∧ acc.maps.logToVirt L = v then
    let d := env.findFreeVirtualSliceForGc acc.allocCnt
    { maps := { virtToLog := Function.update acc.maps.virtToLog d L,
                logToVirt := Function.update acc.maps.logToVirt L d },
      trace := acc.trace ++ pageEvents v L d,
      allocCnt := acc.allocCnt + 1 }
  else acc

/-- State of the migration after the copy loop has processed pages
`0 .. n-1` of the victim. -/
def gcMigrateUpTo (env : GcEnv) (victimBlockNo : Nat) (maps : MapState) (n : Nat) : MigAcc :=
  (List.range n).foldl (gcPageStep env victimBlockNo) ⟨maps, [], 0⟩

/-- The migration part of `GarbageCollection(die)` given the selected victim
and its `invalidSliceCnt`: run the copy loop over all pages unless every slice
is invalid, then issue the erase. -/
def garbageCollectionMigrate (env : GcEnv) (victimBlockNo victimInvalidCnt : Nat)
    (maps : MapState) : MigAcc :=
  let acc := if victimInvalidCnt ≠ env.slicesPerBlock then
               gcMigrateUpTo env victimBlockNo maps env.pagesPerBlock
             else (⟨maps, [], 0⟩ : MigAcc)
  { acc with trace := acc.trace ++ [Ev.eraseBlk victimBlockNo] }

/-! ## Index well-formedness

A bucket's pointer structure is abstracted by the list of block numbers from
head to tail.  `NextChain s l n` states that the `nextBlock` links thread the
members of `l` in order and the last member's `nextBlock` is `n`;
`PrevChain s p l` states that the first member's `prevBlock` is `p` and every
later member's `prevBlock` points at its predecessor. -/

def NextChain (s : GcState) : List Nat → Nat → Prop
  | [], _ => True
  | b :: rest, n => (s.blocks b).nextBlock = rest.headD n ∧ NextChain s rest n

def PrevChain (s : GcState) : Nat → List Nat → Prop
  | _, [] => True
  | p, b :: rest => (s.blocks b).prevBlock = p ∧ PrevChain s b rest

/-- Bucket `k` of the state holds exactly the blocks of `l`, doubly linked
head to tail, with every member's `invalidSliceCnt` equal to `k`. -/
def Represents (s : GcState) (k : Nat) (l : List Nat) : Prop :=
  s.headBlock k = l.headD BLOCK_NONE ∧
  s.tailBlock k = l.getLastD BLOCK_NONE ∧
  NextChain s l BLOCK_NONE ∧
  PrevChain s BLOCK_NONE l ∧
  ∀ b ∈ l, (s.blocks b).invalidSliceCnt = k

/-- Well-formedness of the whole victim index of one die, with the per-bucket
contents `ls` as explicit witness: every bucket `0..S` is represented by its
list, buckets beyond `S` are empty, the lists are duplicate-free and pairwise
disjoint (no block sits in two buckets), and every member is a real block
number (below `numBlocks`, which itself is below the sentinels). -/
structure Inv (s : GcState) (ls : Nat → List Nat) : Prop where
  rep : ∀ k, k ≤ s.slicesPerBlock → Represents s k (ls k)
  hi : ∀ k, s.slicesPerBlock < k → ls k = []
  nd : ∀ k, (ls k).Nodup
  disj : ∀ j k, j ≠ k → ∀ b, b ∈ ls j → b ∉ ls k
  bnd : ∀ k, ∀ b, b ∈ ls k → b < s.numBlocks
  sb : s.numBlocks ≤ BLOCK_FAIL

/-- The shared victim-selection shape of the Cost-Benefit and CAT
`GetFromGcVictimList`: full scan maximising `score`, then detach. -/
def scanSelect (s : GcState) (score : Nat → Nat) : Nat × GcState × Bool :=
  let best := bestScan score (scanList s)
  if best.1 ≠ BLOCK_FAIL then (best.1, detachBlockFromGcList s best.1, false)
  else (best.1, s, true)

/-- The Cost-Benefit scoring formula exactly as the specification words it:
`(I · (A+1) · P) / (V+1)` with a 64-bit unsigned intermediate product
narrowed to 32 bits, returning 0 without dividing when the product is 0
(`V = P − I`). -/
def costBenefitScoreSpec (I A P : Nat) : Nat :=
  let product := I * (A + 1) * P % U64
  if product = 0 then 0 else product / (P - I + 1) % U32

/-- The CAT scoring formula exactly as the specification words it:
`((I+1) · (A+1)) / ((V+1) · (W+1))` computed the same way. -/
def catScoreSpec (I A W P : Nat) : Nat :=
  let numerator := (I + 1) * (A + 1) % U64
  let denominator := (P - I + 1) * (W + 1) % U64
  if numerator = 0 then 0 else numerator / denominator % U32

def isEnqRead : Ev → Bool
  | Ev.enqRead _ _ => true
  | _ => false

def isEnqWrite : Ev → Bool
  | Ev.enqWrite _ _ => true
  | _ => false

def isAllocEv : Ev → Bool
  | Ev.allocSlot => true
  | Ev.allocBuf => true
  | _ => false

/-- Every WRITE request of a slice is enqueued after its READ (as the spec
orders them). -/
def readBeforeWrite (tr : List Ev) : Prop :=
  ∀ i d L, tr.get? i = some (Ev.enqWrite d L) →
    ∃ j v, j < i ∧ tr.get? j = some (Ev.enqRead v L)

/-- The erase is issued after every WRITE enqueue. -/
def eraseAfterWrites (tr : List Ev) : Prop :=
  ∀ i j d L blk, tr.get? i = some (Ev.enqWrite d L) →
    tr.get? j = some (Ev.eraseBlk blk) → i < j

/-- The two mapping stores occupy the two positions right after the WRITE
enqueue (the ordering the specification asserts). -/
def mapsUpdatedAfterWrite (tr : List Ev) : Prop :=
  ∀ i d L, tr.get? i = some (Ev.enqWrite d L) →
    tr.get? (i + 1) = some (Ev.mapL2V L d) ∧ tr.get? (i + 2) = some (Ev.mapV2L d L)

/-- The ordering claimed by the specification for one `GarbageCollection`
trace: READ before WRITE, ERASE after all WRITEs, and the two mapping stores
immediately after the WRITE enqueue. -/
def claimC9Ordering (tr : List Ev) : Prop :=
  readBeforeWrite tr ∧ eraseAfterWrites tr ∧ mapsUpdatedAfterWrite tr

/-- What actually holds at each WRITE enqueue: the two mapping stores sit
immediately BEFORE it, and its READ was enqueued earlier. -/
def WriteShape (tr : List Ev) : Prop :=
  ∀ i d L, tr.get? i = some (Ev.enqWrite d L) →
    2 ≤ i ∧ tr.get? (i - 1) = some (Ev.mapV2L d L) ∧
    tr.get? (i - 2) = some (Ev.mapL2V L d) ∧
    ∃ j v, j < i ∧ tr.get? j = some (Ev.enqRead v L)


/-! ### Concrete states and environments for witnesses and counterexamples -/

/-- A CAT-build die with a single candidate in bucket 1 (a dirty but young,
low-yield block): its CAT score is `⌊2/4⌋ = 0`. -/
def cexC1state : GcState where
  slicesPerBlock := 4
  pagesPerBlock := 4
  numBlocks := 2
  blocks := fun b =>
    if b = 0 then ⟨1, 0, BLOCK_NONE, BLOCK_NONE⟩ else ⟨0, 0, BLOCK_NONE, BLOCK_NONE⟩
  headBlock := fun k => if k = 1 then 0 else BLOCK_NONE
  tailBlock := fun k => if k = 1 then 0 else BLOCK_NONE
  gcActivityTick := 0
  gcLastTick := fun _ => 0

/-- A Cost-Benefit-build die with one all-invalid candidate whose 64-bit score
`4 · 2^28 · 4 = 2^32` truncates to 0 in the 32-bit narrowing. -/
def cexC5state : GcState where
  slicesPerBlock := 4
  pagesPerBlock := 4
  numBlocks := 2
  blocks := fun b =>
    if b = 0 then ⟨4, 0, BLOCK_NONE, BLOCK_NONE⟩ else ⟨0, 0, BLOCK_NONE, BLOCK_NONE⟩
  headBlock := fun k => if k = 4 then 0 else BLOCK_NONE
  tailBlock := fun k => if k = 4 then 0 else BLOCK_NONE
  gcActivityTick := 268435455
  gcLastTick := fun _ => 0

/-- A CAT-build die with two candidates in bucket 3 agreeing on `(I, V, A)` and
differing in wear (21 vs 11), whose truncated scores coincide
(`⌊44/44⌋ = ⌊44/24⌋ = 1`); the higher-wear block sits first in scan order. -/
def cexC6state : GcState where
  slicesPerBlock := 4
  pagesPerBlock := 4
  numBlocks := 2
  blocks := fun b =>
    if b = 0 then ⟨3, 21, BLOCK_NONE, 1⟩
    else if b = 1 then ⟨3, 11, 0, BLOCK_NONE⟩
    else ⟨0, 0, BLOCK_NONE, BLOCK_NONE⟩
  headBlock := fun k => if k = 3 then 0 else BLOCK_NONE
  tailBlock := fun k => if k = 3 then 1 else BLOCK_NONE
  gcActivityTick := 11
  gcLastTick := fun _ => 1

/-- A CAT-build die showing the `(I+1)·(A+1) < 2^32` bound is essential for the
lower-wear preference: one slice per block, two candidates with `I = 1`,
`V = 0`, age `2^31 − 1`, wears 1 (block 0, scanned first) and 0 (block 1).
The exact quotients are `2^31` and `2^32`; the 32-bit narrowing zeroes the
lower-wear block's score, so the truncated scores differ yet the HIGHER-wear
block 0 is selected. -/
def cexC6bstate : GcState where
  slicesPerBlock := 1
  pagesPerBlock := 1
  numBlocks := 2
  blocks := fun b =>
    if b = 0 then ⟨1, 1, BLOCK_NONE, 1⟩
    else if b = 1 then ⟨1, 0, 0, BLOCK_NONE⟩
    else ⟨0, 0, BLOCK_NONE, BLOCK_NONE⟩
  headBlock := fun k => if k = 1 then 0 else BLOCK_NONE
  tailBlock := fun k => if k = 1 then 1 else BLOCK_NONE
  gcActivityTick := 2147483647
  gcLastTick := fun _ => 0

/-- A die whose activity clock sits at `2^32 − 1`, one `Put` away from the
32-bit wraparound. -/
def cexC7state : GcState where
  slicesPerBlock := 4
  pagesPerBlock := 4
  numBlocks := 2
  blocks := fun _ => ⟨1, 0, BLOCK_NONE, BLOCK_NONE⟩
  headBlock := fun _ => BLOCK_NONE
  tailBlock := fun _ => BLOCK_NONE
  gcActivityTick := 4294967295
  gcLastTick := fun _ => 0

/-- A die with a three-block chain `0 – 1 – 2` in bucket 2, for unlinking the
interior block. -/
def cexC8state : GcState where
  slicesPerBlock := 4
  pagesPerBlock := 4
  numBlocks := 3
  blocks := fun b =>
    if b = 0 then ⟨2, 0, BLOCK_NONE, 1⟩
    else if b = 1 then ⟨2, 0, 0, 2⟩
    else ⟨2, 0, 1, BLOCK_NONE⟩
  headBlock := fun k => if k = 2 then 0 else BLOCK_NONE
  tailBlock := fun k => if k = 2 then 2 else BLOCK_NONE
  gcActivityTick := 0
  gcLastTick := fun _ => 0

/-- A one-page migration environment: page 0 of the victim translates to
virtual slice 0, and the free-slice allocator hands out `100, 101, …`. -/
def cexC9env : GcEnv where
  pagesPerBlock := 1
  slicesPerBlock := 4
  vorg2VsaTranslation := fun _ p => p
  findFreeVirtualSliceForGc := fun n => 100 + n

/-- The mapping tables in which virtual slice 0 holds live logical slice 7. -/
def cexC9maps : MapState where
  virtToLog := fun v => if v = 0 then 7 else LSA_NONE
  logToVirt := fun L => if L = 7 then 0 else LSA_NONE

/-- The witness base die: empty index; block 0 and 1 carry `invalidSliceCnt = 2`,
block 2 carries `invalidSliceCnt = 4`. -/
def wBase : GcState where
  slicesPerBlock := 4
  pagesPerBlock := 4
  numBlocks := 3
  blocks := fun b =>
    if b = 2 then ⟨4, 0, BLOCK_NONE, BLOCK_NONE⟩ else ⟨2, 0, BLOCK_NONE, BLOCK_NONE⟩
  headBlock := fun _ => BLOCK_NONE
  tailBlock := fun _ => BLOCK_NONE
  gcActivityTick := 0
  gcLastTick := fun _ => 0

/-- The witness base die for the CAT wear-spread scenario of the spec (two blocks
with `I = 3`, age 10, wear 1000 vs 10), index still empty. -/
def wBase6 : GcState where
  slicesPerBlock := 4
  pagesPerBlock := 4
  numBlocks := 2
  blocks := fun b =>
    if b = 0 then ⟨3, 1000, BLOCK_NONE, BLOCK_NONE⟩ else ⟨3, 10, BLOCK_NONE, BLOCK_NONE⟩
  headBlock := fun _ => BLOCK_NONE
  tailBlock := fun _ => BLOCK_NONE
  gcActivityTick := 11
  gcLastTick := fun _ => 1

/-! ### State-accessor simp lemmas -/

@[simp] theorem setBlk_blocks (s : GcState) (b : Nat) (f : Block → Block) (x : Nat) :
    (setBlk s b f).blocks x = if x = b then f (s.blocks x) else s.blocks x := rfl

@[simp] theorem setBlk_headBlock (s : GcState) (b : Nat) (f : Block → Block) :
    (setBlk s b f).headBlock = s.headBlock := rfl

@[simp] theorem setBlk_tailBlock (s : GcState) (b : Nat) (f : Block → Block) :
    (setBlk s b f).tailBlock = s.tailBlock := rfl

@[simp] theorem setBlk_slices (s : GcState) (b : Nat) (f : Block → Block) :
    (setBlk s b f).slicesPerBlock = s.slicesPerBlock := rfl

@[simp] theorem setBlk_numBlocks (s : GcState) (b : Nat) (f : Block → Block) :
    (setBlk s b f).numBlocks = s.numBlocks := rfl

@[simp] theorem setBlk_tick (s : GcState) (b : Nat) (f : Block → Block) :
    (setBlk s b f).gcActivityTick = s.gcActivityTick := rfl

@[simp] theorem setHead_headBlock (s : GcState) (k v x : Nat) :
    (setHead s k v).headBlock x = if x = k then v else s.headBlock x := rfl

@[simp] theorem setHead_tailBlock (s : GcState) (k v : Nat) :
    (setHead s k v).tailBlock = s.tailBlock := rfl

@[simp] theorem setHead_blocks (s : GcState) (k v : Nat) :
    (setHead s k v).blocks = s.blocks := rfl

@[simp] theorem setHead_slices (s : GcState) (k v : Nat) :
    (setHead s k v).slicesPerBlock = s.slicesPerBlock := rfl

@[simp] theorem setHead_numBlocks (s : GcState) (k v : Nat) :
    (setHead s k v).numBlocks = s.numBlocks := rfl

@[simp] theorem setHead_tick (s : GcState) (k v : Nat) :
    (setHead s k v).gcActivityTick = s.gcActivityTick := rfl

@[simp] theorem setTail_tailBlock (s : GcState) (k v x : Nat) :
    (setTail s k v).tailBlock x = if x = k then v else s.tailBlock x := rfl

@[simp] theorem setTail_headBlock (s : GcState) (k v : Nat) :
    (setTail s k v).headBlock = s.headBlock := rfl

@[simp] theorem setTail_blocks (s : GcState) (k v : Nat) :
    (setTail s k v).blocks = s.blocks := rfl

@[simp] theorem setTail_slices (s : GcState) (k v : Nat) :
    (setTail s k v).slicesPerBlock = s.slicesPerBlock := rfl

@[simp] theorem setTail_numBlocks (s : GcState) (k v : Nat) :
    (setTail s k v).numBlocks = s.numBlocks := rfl

@[simp] theorem setTail_tick (s : GcState) (k v : Nat) :
    (setTail s k v).gcActivityTick = s.gcActivityTick := rfl

/-! ### Chain lemmas -/

theorem headD_append {α : Type} (xs ys : List α) (d : α) :
    (xs ++ ys).headD d = xs.headD (ys.headD d) := by
  cases xs <;> rfl

theorem nextChain_congr {s t : GcState} {l : List Nat} {n : Nat}
    (h : ∀ x ∈ l, (t.blocks x).nextBlock = (s.blocks x).nextBlock) :
    NextChain s l n → NextChain t l n := by
  induction l with
  | nil => intro; trivial
  | cons b rest ih =>
    intro hc
    exact ⟨(h b (List.mem_cons_self b rest)).trans hc.1,
      ih (fun x hx => h x (List.mem_cons_of_mem b hx)) hc.2⟩

theorem prevChain_congr {s t : GcState} {p : Nat} {l : List Nat}
    (h : ∀ x ∈ l, (t.blocks x).prevBlock = (s.blocks x).prevBlock) :
    PrevChain s p l → PrevChain t p l := by
  induction l generalizing p with
  | nil => intro; trivial
  | cons b rest ih =>
    intro hc
    exact ⟨(h b (List.mem_cons_self b rest)).trans hc.1,
      ih (fun x hx => h x (List.mem_cons_of_mem b hx)) hc.2⟩

theorem nextChain_append {s : GcState} {xs ys : List Nat} {n : Nat} :
    NextChain s (xs ++ ys) n ↔ NextChain s xs (ys.headD n) ∧ NextChain s ys n := by
  induction xs with
  | nil => simp [NextChain]
  | cons a xs ih =>
    simp only [List.cons_append, NextChain, ih, headD_append, List.append_eq]
    tauto

theorem prevChain_append {s : GcState} {p : Nat} {xs ys : List Nat} :
    PrevChain s p (xs ++ ys) ↔ PrevChain s p xs ∧ PrevChain s (xs.getLastD p) ys := by
  induction xs generalizing p with
  | nil => simp [PrevChain]
  | cons a xs ih =>
    simp only [List.cons_append, PrevChain, ih, List.getLastD_cons, List.append_eq]
    tauto

theorem walk_eq {s : GcState} {l : List Nat}
    (hne : ∀ x ∈ l, x ≠ BLOCK_NONE) (hch : NextChain s l BLOCK_NONE) :
    ∀ fuel, l.length ≤ fuel → walk s fuel (l.headD BLOCK_NONE) = l := by
  induction l with
  | nil =>
    intro fuel _
    cases fuel <;> simp [walk]
  | cons b rest ih =>
    intro fuel hfuel
    match fuel, hfuel with
    | f + 1, hfuel =>
      have hb : b ≠ BLOCK_NONE := hne b (List.mem_cons_self b rest)
      have : walk s (f + 1) ((b :: rest).headD BLOCK_NONE)
          = b :: walk s f ((s.blocks b).nextBlock) := by
        simp [walk, hb]
      rw [this, hch.1]
      have hrest : walk s f (rest.headD BLOCK_NONE) = rest :=
        ih (fun x hx => hne x (List.mem_cons_of_mem b hx)) hch.2 f (Nat.le_of_succ_le_succ hfuel)
      cases rest with
      | nil => simpa using hrest
      | cons c cs => simpa using hrest

theorem nodup_bounded_length {l : List Nat} {N : Nat}
    (hnd : l.Nodup) (hb : ∀ x ∈ l, x < N) : l.length ≤ N := by
  have hcard : l.toFinset.card = l.length := List.toFinset_card_of_nodup hnd
  have hsub : l.toFinset ⊆ Finset.range N := by
    intro x hx
    exact Finset.mem_range.mpr (hb x (List.mem_toFinset.mp hx))
  calc l.length = l.toFinset.card := hcard.symm
    _ ≤ (Finset.range N).card := Finset.card_le_card hsub
    _ = N := Finset.card_range N

/-! ### Derived facts about well-formed states -/

theorem Inv.mem_ne_none {s : GcState} {ls : Nat → List Nat} (h : Inv s ls)
    {k b : Nat} (hb : b ∈ ls k) : b ≠ BLOCK_NONE := by
  have h1 := h.bnd k b hb
  have h2 := h.sb
  intro he
  subst he
  simp only [BLOCK_NONE, BLOCK_FAIL] at h1 h2
  omega

theorem Inv.mem_ne_fail {s : GcState} {ls : Nat → List Nat} (h : Inv s ls)
    {k b : Nat} (hb : b ∈ ls k) : b ≠ BLOCK_FAIL := by
  have h1 := h.bnd k b hb
  have h2 := h.sb
  intro he
  subst he
  simp only [BLOCK_FAIL] at h1 h2
  omega

theorem getLastD_concat' {l : List Nat} {a d : Nat} : (l ++ [a]).getLastD d = a := by
  induction l generalizing d with
  | nil => rfl
  | cons x xs ih =>
    rw [List.cons_append, List.getLastD_cons]
    exact ih

theorem headD_ne_nil {l : List Nat} (h : l ≠ []) (d : Nat) : l.headD d ∈ l := by
  cases l with
  | nil => exact absurd rfl h
  | cons x xs => exact List.mem_cons_self x xs

theorem getLastD_ne_nil {l : List Nat} (h : l ≠ []) (d : Nat) : l.getLastD d ∈ l := by
  rcases List.eq_nil_or_concat l with hl | ⟨l₀, a, hl⟩
  · exact absurd hl h
  · rw [List.concat_eq_append] at hl
    subst hl
    rw [getLastD_concat']
    exact List.mem_append_right l₀ (List.mem_cons_self a [])

/-- Under a `Represents` witness with non-sentinel members, a bucket's head is
`BLOCK_NONE` exactly when the bucket is empty. -/
theorem head_eq_none_iff {s : GcState} {k : Nat} {l : List Nat}
    (hr : Represents s k l) (hne : ∀ x ∈ l, x ≠ BLOCK_NONE) :
    (s.headBlock k = BLOCK_NONE ↔ l = []) := by
  constructor
  · intro hh
    by_contra hnil
    exact hne _ (headD_ne_nil hnil BLOCK_NONE) (by rw [← hr.1, hh])
  · intro hl
    subst hl
    exact hr.1

theorem tail_eq_none_iff {s : GcState} {k : Nat} {l : List Nat}
    (hr : Represents s k l) (hne : ∀ x ∈ l, x ≠ BLOCK_NONE) :
    (s.tailBlock k = BLOCK_NONE ↔ l = []) := by
  constructor
  · intro hh
    by_contra hnil
    exact hne _ (getLastD_ne_nil hnil BLOCK_NONE) (by rw [← hr.2.1, hh])
  · intro hl
    subst hl
    exact hr.2.1

theorem flatMap_congr {α β : Type} {l : List α} {f g : α → List β}
    (h : ∀ x ∈ l, f x = g x) : l.flatMap f = l.flatMap g := by
  induction l with
  | nil => rfl
  | cons a l ih =>
    simp only [List.flatMap_cons]
    rw [h a (List.mem_cons_self a l), ih (fun x hx => h x (List.mem_cons_of_mem a hx))]

theorem mem_bucketsDesc {S k : Nat} : k ∈ bucketsDesc S ↔ 1 ≤ k ∧ k ≤ S := by
  simp only [bucketsDesc, List.mem_map, List.mem_reverse, List.mem_range]
  constructor
  · rintro ⟨i, hi, rfl⟩; omega
  · rintro ⟨h1, h2⟩; exact ⟨k - 1, by omega, by omega⟩

/-- Under the invariant, the pointer-chasing candidate scan visits exactly the
witness lists, buckets `S` down to `1`, head to tail. -/
theorem scanList_eq {s : GcState} {ls : Nat → List Nat} (h : Inv s ls) :
    scanList s = (bucketsDesc s.slicesPerBlock).flatMap ls := by
  unfold scanList
  apply flatMap_congr
  intro k hk
  rcases mem_bucketsDesc.mp hk with ⟨h1, h2⟩
  have hr := h.rep k h2
  have hne : ∀ x ∈ ls k, x ≠ BLOCK_NONE := fun x hx => h.mem_ne_none hx
  have hlen : (ls k).length ≤ s.numBlocks :=
    nodup_bounded_length (h.nd k) (fun x hx => h.bnd k x hx)
  rw [hr.1]
  exact walk_eq hne hr.2.2.1 (s.numBlocks + 1) (by omega)

/-- Members of the scan list are exactly the members of buckets `1..S`. -/
theorem mem_scanList {s : GcState} {ls : Nat → List Nat} (h : Inv s ls) {b : Nat} :
    b ∈ scanList s ↔ ∃ k, 1 ≤ k ∧ k ≤ s.slicesPerBlock ∧ b ∈ ls k := by
  rw [scanList_eq h]
  simp only [List.mem_flatMap, mem_bucketsDesc]
  constructor
  · rintro ⟨k, ⟨h1, h2⟩, hm⟩; exact ⟨k, h1, h2, hm⟩
  · rintro ⟨k, h1, h2, hm⟩; exact ⟨k, ⟨h1, h2⟩, hm⟩

/-- Pointwise frame rule: a state change that leaves every indexed block's
record, and every bucket's head and tail, unchanged preserves the invariant. -/
theorem Inv.frame {s t : GcState} {ls : Nat → List Nat} (h : Inv s ls)
    (hblocks : ∀ k x, x ∈ ls k → t.blocks x = s.blocks x)
    (hh : ∀ k, k ≤ s.slicesPerBlock → t.headBlock k = s.headBlock k)
    (ht : ∀ k, k ≤ s.slicesPerBlock → t.tailBlock k = s.tailBlock k)
    (hS : t.slicesPerBlock = s.slicesPerBlock) (hN : t.numBlocks = s.numBlocks) :
    Inv t ls := by
  refine ⟨?_, ?_, h.nd, h.disj, ?_, ?_⟩
  · intro k hk
    rw [hS] at hk
    have hr := h.rep k hk
    refine ⟨(hh k hk).trans hr.1, (ht k hk).trans hr.2.1, ?_, ?_, ?_⟩
    · exact nextChain_congr (fun x hx => by rw [hblocks k x hx]) hr.2.2.1
    · exact prevChain_congr (fun x hx => by rw [hblocks k x hx]) hr.2.2.2.1
    · intro x hx
      rw [hblocks k x hx]
      exact hr.2.2.2.2 x hx
  · intro k hk
    rw [hS] at hk
    exact h.hi k hk
  · intro k b hb
    rw [hN]
    exact h.bnd k b hb
  · rw [hN]
    exact h.sb

theorem represents_congr {s t : GcState} {k : Nat} {l : List Nat}
    (hr : Represents s k l)
    (hb : ∀ x ∈ l, t.blocks x = s.blocks x)
    (hh : t.headBlock k = s.headBlock k) (ht : t.tailBlock k = s.tailBlock k) :
    Represents t k l := by
  refine ⟨hh.trans hr.1, ht.trans hr.2.1, ?_, ?_, ?_⟩
  · exact nextChain_congr (fun x hx => by rw [hb x hx]) hr.2.2.1
  · exact prevChain_congr (fun x hx => by rw [hb x hx]) hr.2.2.2.1
  · intro x hx
    rw [hb x hx]
    exact hr.2.2.2.2 x hx

theorem headD_ne_nil_eq {l : List Nat} (h : l ≠ []) (d₁ d₂ : Nat) :
    l.headD d₁ = l.headD d₂ := by
  cases l with
  | nil => exact absurd rfl h
  | cons x xs => rfl

theorem update_append_nodup {ls : Nat → List Nat} {cnt b : Nat}
    (hnd : ∀ k, (ls k).Nodup) (hb : ∀ k, b ∉ ls k) :
    ∀ k, ((Function.update ls cnt (ls cnt ++ [b])) k).Nodup := by
  intro k
  by_cases hkc : k = cnt
  · subst hkc
    rw [Function.update_same]
    exact List.Nodup.append (hnd k) (List.nodup_singleton b)
      (List.disjoint_singleton.mpr (hb k))
  · rw [Function.update_noteq hkc]
    exact hnd k

theorem update_append_disj {ls : Nat → List Nat} {cnt b : Nat}
    (hd : ∀ j k, j ≠ k → ∀ x, x ∈ ls j → x ∉ ls k) (hb : ∀ k, b ∉ ls k) :
    ∀ j k, j ≠ k → ∀ x, x ∈ (Function.update ls cnt (ls cnt ++ [b])) j →
      x ∉ (Function.update ls cnt (ls cnt ++ [b])) k := by
  intro j k hjk x hxj hxk
  by_cases hj : j = cnt <;> by_cases hk2 : k = cnt
  · exact hjk (hj.trans hk2.symm)
  · subst hj
    rw [Function.update_same] at hxj
    rw [Function.update_noteq hk2] at hxk
    rcases List.mem_append.mp hxj with h1 | h1
    · exact hd j k hjk x h1 hxk
    · rw [List.mem_singleton] at h1
      subst h1
      exact hb k hxk
  · subst hk2
    rw [Function.update_noteq hj] at hxj
    rw [Function.update_same] at hxk
    rcases List.mem_append.mp hxk with h1 | h1
    · exact hd j k hjk x hxj h1
    · rw [List.mem_singleton] at h1
      subst h1
      exact hb j hxj
  · rw [Function.update_noteq hj] at hxj
    rw [Function.update_noteq hk2] at hxk
    exact hd j k hjk x hxj hxk

theorem update_append_bnd {ls : Nat → List Nat} {cnt b N : Nat}
    (hbnd : ∀ k, ∀ x, x ∈ ls k → x < N) (hbN : b < N) :
    ∀ k, ∀ x, x ∈ (Function.update ls cnt (ls cnt ++ [b])) k → x < N := by
  intro k x hx
  by_cases hkc : k = cnt
  · subst hkc
    rw [Function.update_same] at hx
    rcases List.mem_append.mp hx with h1 | h1
    · exact hbnd k x h1
    · rw [List.mem_singleton] at h1
      subst h1
      exact hbN
  · rw [Function.update_noteq hkc] at hx
    exact hbnd k x hx

/-- The shared list-insertion of `PutToGcVictimList` preserves the index invariant:
under the precondition that the inserted block sits in no bucket and its
`invalidSliceCnt` equals the bucket argument, the block becomes the new tail
of its bucket and every invariant clause survives. -/
theorem listInsert_preserves {s : GcState} {ls : Nat → List Nat} {b cnt : Nat}
    (h : Inv s ls) (hb : ∀ k, b ∉ ls k) (hbN : b < s.numBlocks)
    (hcnt : (s.blocks b).invalidSliceCnt = cnt) (hk : cnt ≤ s.slicesPerBlock) :
    Inv (listInsert s b cnt) (Function.update ls cnt (ls cnt ++ [b])) := by
  have hnone : ∀ x ∈ ls cnt, x ≠ BLOCK_NONE := fun x hx => h.mem_ne_none hx
  by_cases htail : s.tailBlock cnt = BLOCK_NONE
  · -- the bucket was empty: singleton insertion
    have hl : ls cnt = [] := (tail_eq_none_iff (h.rep cnt hk) hnone).mp htail
    have hs' : listInsert s b cnt
        = setTail (setHead (setBlk s b fun bl =>
            { bl with prevBlock := BLOCK_NONE, nextBlock := BLOCK_NONE }) cnt b) cnt b := by
      unfold listInsert
      simp [htail]
    rw [hs']
    refine ⟨?_, ?_, update_append_nodup h.nd hb, update_append_disj h.disj hb,
      ?_, h.sb⟩
    · intro k hkS
      simp only [setTail_slices, setHead_slices, setBlk_slices] at hkS
      by_cases hkc : k = cnt
      · subst hkc
        rw [Function.update_same, hl, List.nil_append]
        refine ⟨by simp, by simp, ⟨by simp, trivial⟩, ⟨by simp, trivial⟩, ?_⟩
        intro x hx
        rw [List.mem_singleton] at hx
        subst hx
        simpa using hcnt
      · rw [Function.update_noteq hkc]
        refine represents_congr (h.rep k hkS) ?_ (by simp [hkc]) (by simp [hkc])
        intro x hx
        have hxb : x ≠ b := fun he => hb k (he ▸ hx)
        simp [hxb]
    · intro k hkS
      simp only [setTail_slices, setHead_slices, setBlk_slices] at hkS
      have hkc : k ≠ cnt := fun he => by omega
      rw [Function.update_noteq hkc]
      exact h.hi k hkS
    · simpa using update_append_bnd h.bnd hbN
  · -- the bucket was non-empty: append after the old tail
    have hlne : ls cnt ≠ [] := fun he => htail ((tail_eq_none_iff (h.rep cnt hk) hnone).mpr he)
    rcases List.eq_nil_or_concat (ls cnt) with hl | ⟨l₀, a, hl⟩
    · exact absurd hl hlne
    rw [List.concat_eq_append] at hl
    have hta : s.tailBlock cnt = a := by
      rw [(h.rep cnt hk).2.1, hl, getLastD_concat']
    have hamem : a ∈ ls cnt := by
      rw [hl]
      exact List.mem_append_right l₀ (List.mem_cons_self a [])
    have hba : b ≠ a := fun he => hb cnt (he ▸ hamem)
    have handl₀ : a ∉ l₀ := by
      have := h.nd cnt
      rw [hl, List.nodup_append] at this
      intro hmem
      exact this.2.2 hmem (List.mem_cons_self a [])
    have hbl₀ : b ∉ l₀ := fun hmem => hb cnt (hl ▸ List.mem_append_left [a] hmem)
    have hs' : listInsert s b cnt
        = setTail (setBlk (setBlk s b fun bl =>
            { bl with prevBlock := s.tailBlock cnt, nextBlock := BLOCK_NONE })
            (s.tailBlock cnt) fun bl => { bl with nextBlock := b }) cnt b := by
      unfold listInsert
      simp [htail]
    rw [hs', hta]
    have hblocks_b : ((setTail (setBlk (setBlk s b fun bl =>
        { bl with prevBlock := a, nextBlock := BLOCK_NONE })
        a fun bl => { bl with nextBlock := b }) cnt b).blocks b)
        = { s.blocks b with prevBlock := a, nextBlock := BLOCK_NONE } := by
      simp [hba]
    have hblocks_a : ((setTail (setBlk (setBlk s b fun bl =>
        { bl with prevBlock := a, nextBlock := BLOCK_NONE })
        a fun bl => { bl with nextBlock := b }) cnt b).blocks a)
        = { s.blocks a with nextBlock := b } := by
      simp [hba.symm]
    have hblocks_other : ∀ x, x ≠ b → x ≠ a →
        ((setTail (setBlk (setBlk s b fun bl =>
          { bl with prevBlock := a, nextBlock := BLOCK_NONE })
          a fun bl => { bl with nextBlock := b }) cnt b).blocks x) = s.blocks x := by
      intro x hxb hxa
      simp [hxb, hxa]
    refine ⟨?_, ?_, update_append_nodup h.nd hb, update_append_disj h.disj hb,
      ?_, h.sb⟩
    · intro k hkS
      simp only [setTail_slices, setBlk_slices] at hkS
      by_cases hkc : k = cnt
      · subst hkc
        rw [Function.update_same]
        have hrep := h.rep k hk
        refine ⟨?_, ?_, ?_, ?_, ?_⟩
        · -- head unchanged
          have : (ls k ++ [b]).headD BLOCK_NONE = (ls k).headD BLOCK_NONE := by
            rw [headD_append]
            exact headD_ne_nil_eq hlne _ _
          rw [this]
          simpa using hrep.1
        · simp [getLastD_concat']
        · -- next chain
          rw [nextChain_append]
          constructor
          · -- NextChain s' (ls k) b  with  [b].headD NONE = b
            show NextChain _ (ls k) (([b] : List Nat).headD BLOCK_NONE)
            have hold : NextChain s (ls k) BLOCK_NONE := hrep.2.2.1
            rw [hl] at hold ⊢
            rw [nextChain_append] at hold ⊢
            refine ⟨?_, ?_⟩
            · refine nextChain_congr ?_ hold.1
              intro x hx
              rw [hblocks_other x (fun he => hbl₀ (he ▸ hx)) (fun he => handl₀ (he ▸ hx))]
            · exact ⟨by simp [hblocks_a], trivial⟩
          · exact ⟨by simp [hblocks_b], trivial⟩
        · -- prev chain
          rw [prevChain_append]
          constructor
          · refine prevChain_congr ?_ hrep.2.2.2.1
            intro x hx
            by_cases hxa : x = a
            · subst hxa
              simp [hblocks_a]
            · rw [hblocks_other x (fun he => hb k (he ▸ hx)) hxa]
          · rw [hl, getLastD_concat']
            exact ⟨by simp [hblocks_b], trivial⟩
        · -- counts
          intro x hx
          rcases List.mem_append.mp hx with h1 | h1
          · by_cases hxa : x = a
            · subst hxa
              rw [hblocks_a]
              exact hrep.2.2.2.2 x h1
            · rw [hblocks_other x (fun he => hb k (he ▸ h1)) hxa]
              exact hrep.2.2.2.2 x h1
          · rw [List.mem_singleton] at h1
            subst h1
            rw [hblocks_b]
            exact hcnt
      · rw [Function.update_noteq hkc]
        refine represents_congr (h.rep k hkS) ?_ (by simp) (by simp [hkc])
        intro x hx
        exact hblocks_other x (fun he => hb k (he ▸ hx))
          (fun he => h.disj cnt k (fun hc => hkc hc.symm) a hamem (he ▸ hx))
    · intro k hkS
      simp only [setTail_slices, setBlk_slices] at hkS
      have hkc : k ≠ cnt := fun he => by omega
      rw [Function.update_noteq hkc]
      exact h.hi k hkS
    · simpa using update_append_bnd h.bnd hbN

theorem getLastD_ne_nil_eq {l : List Nat} (h : l ≠ []) (d₁ d₂ : Nat) :
    l.getLastD d₁ = l.getLastD d₂ := by
  rcases List.eq_nil_or_concat l with hl | ⟨l₀, a, hl⟩
  · exact absurd hl h
  · rw [List.concat_eq_append] at hl
    subst hl
    rw [getLastD_concat', getLastD_concat']

theorem getLastD_append_right {xs ys : List Nat} (h : ys ≠ []) (d : Nat) :
    (xs ++ ys).getLastD d = ys.getLastD d := by
  induction xs generalizing d with
  | nil => rfl
  | cons x xs ih =>
    rw [List.cons_append, List.getLastD_cons, ih x]
    exact getLastD_ne_nil_eq h x d

theorem update_sub_nodup {ls : Nat → List Nat} {k₀ : Nat} {newl : List Nat}
    (hnd : ∀ k, (ls k).Nodup) (hnew : newl.Nodup) :
    ∀ k, ((Function.update ls k₀ newl) k).Nodup := by
  intro k
  by_cases hkc : k = k₀
  · subst hkc
    rw [Function.update_same]
    exact hnew
  · rw [Function.update_noteq hkc]
    exact hnd k

theorem update_sub_disj {ls : Nat → List Nat} {k₀ : Nat} {newl : List Nat}
    (hd : ∀ j k, j ≠ k → ∀ x, x ∈ ls j → x ∉ ls k)
    (hsub : ∀ x ∈ newl, x ∈ ls k₀) :
    ∀ j k, j ≠ k → ∀ x, x ∈ (Function.update ls k₀ newl) j →
      x ∉ (Function.update ls k₀ newl) k := by
  intro j k hjk x hxj hxk
  by_cases hj : j = k₀ <;> by_cases hk2 : k = k₀
  · exact hjk (hj.trans hk2.symm)
  · subst hj
    rw [Function.update_same] at hxj
    rw [Function.update_noteq hk2] at hxk
    exact hd j k hjk x (hsub x hxj) hxk
  · subst hk2
    rw [Function.update_noteq hj] at hxj
    rw [Function.update_same] at hxk
    exact hd j k hjk x hxj (hsub x hxk)
  · rw [Function.update_noteq hj] at hxj
    rw [Function.update_noteq hk2] at hxk
    exact hd j k hjk x hxj hxk

theorem update_sub_bnd {ls : Nat → List Nat} {k₀ N : Nat} {newl : List Nat}
    (hbnd : ∀ k, ∀ x, x ∈ ls k → x < N) (hsub : ∀ x ∈ newl, x ∈ ls k₀) :
    ∀ k, ∀ x, x ∈ (Function.update ls k₀ newl) k → x < N := by
  intro k x hx
  by_cases hkc : k = k₀
  · subst hkc
    rw [Function.update_same] at hx
    exact hbnd k x (hsub x hx)
  · rw [Function.update_noteq hkc] at hx
    exact hbnd k x hx

theorem update_hi {ls : Nat → List Nat} {k₀ S : Nat} {newl : List Nat}
    (hhi : ∀ k, S < k → ls k = []) (hk₀ : k₀ ≤ S) :
    ∀ k, S < k → (Function.update ls k₀ newl) k = [] := by
  intro k hk
  have hkc : k ≠ k₀ := fun he => by omega
  rw [Function.update_noteq hkc]
  exact hhi k hk

/-- The intrusive links of a list member, read off the decomposition of its
bucket: its `prevBlock` is the last block before it (or `BLOCK_NONE`) and its
`nextBlock` is the first block after it (or `BLOCK_NONE`). -/
theorem member_fields {s : GcState} {k : Nat} {l l₁ l₂ : List Nat} {b : Nat}
    (hr : Represents s k l) (hdec : l = l₁ ++ b :: l₂) :
    (s.blocks b).prevBlock = l₁.getLastD BLOCK_NONE ∧
    (s.blocks b).nextBlock = l₂.headD BLOCK_NONE := by
  have hnext := hr.2.2.1
  have hprev := hr.2.2.2.1
  rw [hdec, nextChain_append] at hnext
  rw [hdec, prevChain_append] at hprev
  have h1 : NextChain s (b :: l₂) BLOCK_NONE := hnext.2
  have h2 : PrevChain s (l₁.getLastD BLOCK_NONE) (b :: l₂) := hprev.2
  rw [NextChain] at h1
  rw [PrevChain] at h2
  exact ⟨h2.1, h1.1⟩

/-- Unlinking via `SelectiveGetFromGcVictimList` preserves the index invariant: on a member
of bucket `k₀`, the bucket loses exactly that member (keeping the order of the
rest) and every invariant clause survives. -/
theorem selectiveGet_preserves {s : GcState} {ls : Nat → List Nat} {b k₀ : Nat}
    (h : Inv s ls) (hk₀ : k₀ ≤ s.slicesPerBlock) (hmem : b ∈ ls k₀) :
    ∃ l₁ l₂, ls k₀ = l₁ ++ b :: l₂ ∧
      Inv (selectiveGetFromGcVictimList s b) (Function.update ls k₀ (l₁ ++ l₂)) := by
  obtain ⟨l₁, l₂, hdec⟩ := List.append_of_mem hmem
  refine ⟨l₁, l₂, hdec, ?_⟩
  have hrep := h.rep k₀ hk₀
  have hcntb : (s.blocks b).invalidSliceCnt = k₀ := hrep.2.2.2.2 b hmem
  obtain ⟨hprevb, hnextb⟩ := member_fields hrep hdec
  have hnodup : (l₁ ++ b :: l₂).Nodup := hdec ▸ h.nd k₀
  have hl₁nd : l₁.Nodup := hnodup.of_append_left
  have hcons : (b :: l₂).Nodup := hnodup.of_append_right
  have hbl₂ : b ∉ l₂ := (List.nodup_cons.mp hcons).1
  have hl₂nd : l₂.Nodup := (List.nodup_cons.mp hcons).2
  have hdisj12 : l₁.Disjoint (b :: l₂) := List.disjoint_of_nodup_append hnodup
  have hbl₁ : b ∉ l₁ := fun hx => hdisj12 hx (List.mem_cons_self b l₂)
  have hmem₁ : ∀ x ∈ l₁, x ∈ ls k₀ := fun x hx => hdec ▸ List.mem_append_left _ hx
  have hmem₂ : ∀ x ∈ l₂, x ∈ ls k₀ :=
    fun x hx => hdec ▸ List.mem_append_right _ (List.mem_cons_of_mem b hx)
  have hsubnew : ∀ x ∈ l₁ ++ l₂, x ∈ ls k₀ := by
    intro x hx
    rcases List.mem_append.mp hx with h1 | h1
    · exact hmem₁ x h1
    · exact hmem₂ x h1
  have hndnew : (l₁ ++ l₂).Nodup := by
    rw [List.nodup_append]
    exact ⟨hl₁nd, hl₂nd, fun x hx1 hx2 => hdisj12 hx1 (List.mem_cons_of_mem b hx2)⟩
  have hnext_full := hrep.2.2.1
  have hprev_full := hrep.2.2.2.1
  rw [hdec, nextChain_append] at hnext_full
  rw [hdec, prevChain_append] at hprev_full
  rcases List.eq_nil_or_concat l₁ with hl₁ | ⟨l₀, p, hl₁⟩
  · subst hl₁
    cases l₂ with
    | nil =>
      -- singleton node: both links BLOCK_NONE, bucket emptied
      have hprev0 : (s.blocks b).prevBlock = BLOCK_NONE := hprevb
      have hnext0 : (s.blocks b).nextBlock = BLOCK_NONE := hnextb
      have hs' : selectiveGetFromGcVictimList s b
          = setTail (setHead s k₀ BLOCK_NONE) k₀ BLOCK_NONE := by
        unfold selectiveGetFromGcVictimList
        rw [hprev0, hnext0, hcntb]
        simp
      rw [hs']
      refine ⟨?_, update_hi h.hi hk₀, update_sub_nodup h.nd hndnew,
        update_sub_disj h.disj hsubnew, ?_, h.sb⟩
      · intro k hkS
        simp only [setTail_slices, setHead_slices] at hkS
        by_cases hkc : k = k₀
        · subst hkc
          rw [Function.update_same]
          exact ⟨by simp, by simp, trivial, trivial, by simp⟩
        · rw [Function.update_noteq hkc]
          exact represents_congr (h.rep k hkS) (fun x hx => rfl)
            (by simp [hkc]) (by simp [hkc])
      · simpa using update_sub_bnd h.bnd hsubnew
    | cons n l₂' =>
      -- head node with a successor
      have hnmem : n ∈ ls k₀ := hmem₂ n (List.mem_cons_self n l₂')
      have hnn : n ≠ BLOCK_NONE := h.mem_ne_none hnmem
      have hnb : n ≠ b := fun he => hbl₂ (he ▸ List.mem_cons_self n l₂')
      have hnl₂' : n ∉ l₂' := (List.nodup_cons.mp hl₂nd).1
      have hprev0 : (s.blocks b).prevBlock = BLOCK_NONE := hprevb
      have hnext0 : (s.blocks b).nextBlock = n := hnextb
      have hs' : selectiveGetFromGcVictimList s b
          = setHead (setBlk s n fun bl => { bl with prevBlock := BLOCK_NONE }) k₀ n := by
        unfold selectiveGetFromGcVictimList
        rw [hprev0, hnext0, hcntb]
        simp [hnn]
      rw [hs']
      refine ⟨?_, update_hi h.hi hk₀, update_sub_nodup h.nd hndnew,
        update_sub_disj h.disj hsubnew, ?_, h.sb⟩
      · intro k hkS
        simp only [setHead_slices, setBlk_slices] at hkS
        by_cases hkc : k = k₀
        · subst hkc
          rw [Function.update_same, List.nil_append]
          have holdnext : NextChain s (n :: l₂') BLOCK_NONE := by
            have h1 : NextChain s (b :: n :: l₂') BLOCK_NONE := hnext_full.2
            rw [NextChain] at h1
            exact h1.2
          have holdprev : PrevChain s n l₂' := by
            have h1 : PrevChain s (([] : List Nat).getLastD BLOCK_NONE) (b :: n :: l₂') :=
              hprev_full.2
            rw [PrevChain] at h1
            have h2 := h1.2
            rw [PrevChain] at h2
            exact h2.2
          refine ⟨by simp, ?_, ?_, ?_, ?_⟩
          · -- tail unchanged
            have htl : s.tailBlock k = (b :: n :: l₂').getLastD BLOCK_NONE := by
              rw [hrep.2.1, hdec]
              rfl
            simp only [setHead_tailBlock, setBlk_tailBlock]
            rw [htl, List.getLastD_cons]
            exact getLastD_ne_nil_eq (by simp) b BLOCK_NONE
          · refine nextChain_congr (fun x hx => ?_) holdnext
            by_cases hxn : x = n <;> simp [hxn]
          · rw [PrevChain]
            refine ⟨by simp, ?_⟩
            refine prevChain_congr (fun x hx => ?_) holdprev
            have hxn : x ≠ n := fun he => hnl₂' (he ▸ hx)
            simp [hxn]
          · intro x hx
            have hxmem : x ∈ ls k := hmem₂ x hx
            have hcx := hrep.2.2.2.2 x hxmem
            by_cases hxn : x = n <;> simp [hxn] <;> simpa [hxn] using hcx
        · rw [Function.update_noteq hkc]
          refine represents_congr (h.rep k hkS) (fun x hx => ?_)
            (by simp [hkc]) (by simp)
          have hxn : x ≠ n := fun he => h.disj k₀ k (fun hc => hkc hc.symm) n hnmem (he ▸ hx)
          simp [hxn]
      · simpa using update_sub_bnd h.bnd hsubnew
  · rw [List.concat_eq_append] at hl₁
    have hpmem : p ∈ ls k₀ := hmem₁ p (hl₁ ▸ List.mem_append_right l₀ (List.mem_cons_self p []))
    have hpn : p ≠ BLOCK_NONE := h.mem_ne_none hpmem
    have hpb : p ≠ b := fun he => hbl₁ (he ▸ (hl₁ ▸ List.mem_append_right l₀ (List.mem_cons_self p [])))
    have hpl₀ : p ∉ l₀ := by
      have : l₁.Nodup := hl₁nd
      rw [hl₁, List.nodup_append] at this
      intro hx
      exact this.2.2 hx (List.mem_cons_self p [])
    have hprev0 : (s.blocks b).prevBlock = p := by rw [hprevb, hl₁, getLastD_concat']
    cases l₂ with
    | nil =>
      -- tail node with a predecessor
      have hnext0 : (s.blocks b).nextBlock = BLOCK_NONE := hnextb
      have hs' : selectiveGetFromGcVictimList s b
          = setTail (setBlk s p fun bl => { bl with nextBlock := BLOCK_NONE }) k₀ p := by
        unfold selectiveGetFromGcVictimList
        rw [hprev0, hnext0, hcntb]
        simp [hpn]
      rw [hs']
      refine ⟨?_, update_hi h.hi hk₀, update_sub_nodup h.nd hndnew,
        update_sub_disj h.disj hsubnew, ?_, h.sb⟩
      · intro k hkS
        simp only [setTail_slices, setBlk_slices] at hkS
        by_cases hkc : k = k₀
        · subst hkc
          rw [Function.update_same, List.append_nil]
          have hl₁ne : l₁ ≠ [] := by
            rw [hl₁]
            exact (List.append_ne_nil_of_right_ne_nil l₀ (by simp))
          have holdnextl₁ : NextChain s l₁ b := by
            have h1 := hnext_full.1
            rwa [show ((b :: []).headD BLOCK_NONE) = b from rfl] at h1
          refine ⟨?_, by simp [hl₁, getLastD_concat'], ?_, ?_, ?_⟩
          · -- head unchanged
            simp only [setTail_headBlock, setBlk_headBlock]
            rw [hrep.1, hdec, headD_append]
            exact (headD_ne_nil_eq hl₁ne _ _).symm
          · -- next chain of l₁ now ends at BLOCK_NONE
            rw [hl₁] at holdnextl₁ ⊢
            rw [nextChain_append] at holdnextl₁ ⊢
            refine ⟨?_, ?_⟩
            · refine nextChain_congr (fun x hx => ?_) holdnextl₁.1
              have hxp : x ≠ p := fun he => hpl₀ (he ▸ hx)
              simp [hxp]
            · exact ⟨by simp, trivial⟩
          · refine prevChain_congr (fun x hx => ?_) hprev_full.1
            by_cases hxp : x = p <;> simp [hxp]
          · intro x hx
            have hcx := hrep.2.2.2.2 x (hmem₁ x hx)
            by_cases hxp : x = p <;> simp [hxp] <;> simpa [hxp] using hcx
        · rw [Function.update_noteq hkc]
          refine represents_congr (h.rep k hkS) (fun x hx => ?_)
            (by simp) (by simp [hkc])
          have hxp : x ≠ p := fun he => h.disj k₀ k (fun hc => hkc hc.symm) p hpmem (he ▸ hx)
          simp [hxp]
      · simpa using update_sub_bnd h.bnd hsubnew
    | cons n l₂' =>
      -- interior node
      have hnmem : n ∈ ls k₀ := hmem₂ n (List.mem_cons_self n l₂')
      have hnn : n ≠ BLOCK_NONE := h.mem_ne_none hnmem
      have hnb : n ≠ b := fun he => hbl₂ (he ▸ List.mem_cons_self n l₂')
      have hnl₂' : n ∉ l₂' := (List.nodup_cons.mp hl₂nd).1
      have hpmem₁ : p ∈ l₁ := by
        rw [hl₁]
        exact List.mem_append_right l₀ (List.mem_cons_self p [])
      have hpn' : p ≠ n := by
        intro he
        refine hdisj12 hpmem₁ ?_
        rw [he]
        exact List.mem_cons_of_mem b (List.mem_cons_self n l₂')
      have hnl₁ : n ∉ l₁ := fun hx =>
        hdisj12 hx (List.mem_cons_of_mem b (List.mem_cons_self n l₂'))
      have hnext0 : (s.blocks b).nextBlock = n := hnextb
      have hs' : selectiveGetFromGcVictimList s b
          = setBlk (setBlk s p fun bl => { bl with nextBlock := n })
              n (fun bl => { bl with prevBlock := p }) := by
        unfold selectiveGetFromGcVictimList
        rw [hprev0, hnext0]
        simp [hpn, hnn]
      rw [hs']
      have hl₁ne : l₁ ≠ [] := by
        rw [hl₁]
        exact (List.append_ne_nil_of_right_ne_nil l₀ (by simp))
      have hblk_p : ((setBlk (setBlk s p fun bl => { bl with nextBlock := n })
          n fun bl => { bl with prevBlock := p }).blocks p)
          = { s.blocks p with nextBlock := n } := by
        simp [hpn']
      have hblk_n : ((setBlk (setBlk s p fun bl => { bl with nextBlock := n })
          n fun bl => { bl with prevBlock := p }).blocks n)
          = { s.blocks n with prevBlock := p } := by
        simp [Ne.symm hpn']
      have hblk_other : ∀ x, x ≠ p → x ≠ n →
          ((setBlk (setBlk s p fun bl => { bl with nextBlock := n })
            n fun bl => { bl with prevBlock := p }).blocks x) = s.blocks x := by
        intro x hxp hxn
        simp [hxp, hxn]
      refine ⟨?_, update_hi h.hi hk₀, update_sub_nodup h.nd hndnew,
        update_sub_disj h.disj hsubnew, ?_, h.sb⟩
      · intro k hkS
        simp only [setBlk_slices] at hkS
        by_cases hkc : k = k₀
        · subst hkc
          rw [Function.update_same]
          refine ⟨?_, ?_, ?_, ?_, ?_⟩
          · -- head unchanged
            simp only [setBlk_headBlock]
            rw [hrep.1, hdec, headD_append, headD_append]
            exact (headD_ne_nil_eq hl₁ne _ _).symm
          · -- tail unchanged
            have e1 : (l₁ ++ b :: n :: l₂').getLastD BLOCK_NONE
                = (b :: n :: l₂').getLastD BLOCK_NONE :=
              getLastD_append_right (by simp) BLOCK_NONE
            have e2 : (l₁ ++ n :: l₂').getLastD BLOCK_NONE
                = (n :: l₂').getLastD BLOCK_NONE :=
              getLastD_append_right (by simp) BLOCK_NONE
            simp only [setBlk_tailBlock]
            rw [hrep.2.1, hdec, e1, e2, List.getLastD_cons]
            exact getLastD_ne_nil_eq (by simp) b BLOCK_NONE
          · -- next chain across the removed node
            rw [nextChain_append]
            constructor
            · -- NextChain s' l₁ ((n :: l₂').headD BLOCK_NONE)
              have holdnextl₁ : NextChain s l₁ b := by
                have h1 := hnext_full.1
                rwa [show ((b :: n :: l₂').headD BLOCK_NONE) = b from rfl] at h1
              rw [hl₁] at holdnextl₁ ⊢
              rw [nextChain_append] at holdnextl₁ ⊢
              refine ⟨?_, ?_⟩
              · refine nextChain_congr (fun x hx => ?_) holdnextl₁.1
                rw [hblk_other x (fun he => hpl₀ (he ▸ hx)) (fun he => hnl₁ (he ▸ hl₁ ▸ List.mem_append_left _ hx))]
              · exact ⟨by simp [hpn'], trivial⟩
            · -- NextChain s' (n :: l₂') BLOCK_NONE
              have holdnext : NextChain s (n :: l₂') BLOCK_NONE := by
                have h1 : NextChain s (b :: n :: l₂') BLOCK_NONE := hnext_full.2
                rw [NextChain] at h1
                exact h1.2
              refine nextChain_congr (fun x hx => ?_) holdnext
              by_cases hxn : x = n
              · subst hxn
                rw [hblk_n]
              · have hxp : x ≠ p := fun he =>
                  hdisj12 (he ▸ hl₁ ▸ List.mem_append_right l₀ (List.mem_cons_self p []))
                    (List.mem_cons_of_mem b hx)
                rw [hblk_other x hxp hxn]
          · -- prev chain across the removed node
            rw [prevChain_append]
            constructor
            · refine prevChain_congr (fun x hx => ?_) hprev_full.1
              by_cases hxn : x = n
              · exact absurd (hxn ▸ hx) hnl₁
              · by_cases hxp : x = p
                · subst hxp
                  rw [hblk_p]
                · rw [hblk_other x hxp hxn]
            · rw [hl₁, getLastD_concat']
              rw [PrevChain]
              refine ⟨by simp [hblk_n], ?_⟩
              have holdprev : PrevChain s n l₂' := by
                have h1 : PrevChain s (l₁.getLastD BLOCK_NONE) (b :: n :: l₂') := hprev_full.2
                rw [PrevChain] at h1
                have h2 := h1.2
                rw [PrevChain] at h2
                exact h2.2
              refine prevChain_congr (fun x hx => ?_) holdprev
              have hxn : x ≠ n := fun he => hnl₂' (he ▸ hx)
              by_cases hxp : x = p
              · subst hxp
                rw [hblk_p]
              · rw [hblk_other x hxp hxn]
          · -- counts
            intro x hx
            have hxmem : x ∈ ls k := hsubnew x hx
            have hcx := hrep.2.2.2.2 x hxmem
            by_cases hxn : x = n
            · subst hxn
              rw [hblk_n]
              exact hcx
            · by_cases hxp : x = p
              · subst hxp
                rw [hblk_p]
                exact hcx
              · rw [hblk_other x hxp hxn]
                exact hcx
        · rw [Function.update_noteq hkc]
          refine represents_congr (h.rep k hkS) (fun x hx => ?_) (by simp) (by simp)
          have hxp : x ≠ p := fun he => h.disj k₀ k (fun hc => hkc hc.symm) p hpmem (he ▸ hx)
          have hxn : x ≠ n := fun he => h.disj k₀ k (fun hc => hkc hc.symm) n hnmem (he ▸ hx)
          exact hblk_other x hxp hxn
      · simpa using update_sub_bnd h.bnd hsubnew

theorem setBlk_nonmember_preserves {s : GcState} {ls : Nat → List Nat}
    (h : Inv s ls) {x : Nat} {f : Block → Block} (hx : ∀ k, x ∉ ls k) :
    Inv (setBlk s x f) ls := by
  refine h.frame ?_ (fun k _ => rfl) (fun k _ => rfl) rfl rfl
  intro k y hy
  have hyx : y ≠ x := fun he => hx k (he ▸ hy)
  simp [hyx]

theorem update_nonmember {ls : Nat → List Nat} {k₀ b : Nat} {newl : List Nat}
    (hb : b ∉ newl) (hother : ∀ k, k ≠ k₀ → b ∉ ls k) :
    ∀ k, b ∉ (Function.update ls k₀ newl) k := by
  intro k
  by_cases hkc : k = k₀
  · subst hkc
    rw [Function.update_same]
    exact hb
  · rw [Function.update_noteq hkc]
    exact hother k hkc

/-- Detaching via `DetachBlockFromGcList` preserves the index invariant on a member of
bucket `k₀`; the member leaves its bucket, order of the rest kept. -/
theorem detach_preserves {s : GcState} {ls : Nat → List Nat} {b k₀ : Nat}
    (h : Inv s ls) (hk₀ : k₀ ≤ s.slicesPerBlock) (hmem : b ∈ ls k₀) :
    ∃ l₁ l₂, ls k₀ = l₁ ++ b :: l₂ ∧
      Inv (detachBlockFromGcList s b) (Function.update ls k₀ (l₁ ++ l₂)) := by
  obtain ⟨l₁, l₂, hdec, hinv⟩ := selectiveGet_preserves h hk₀ hmem
  refine ⟨l₁, l₂, hdec, ?_⟩
  have hnodup : (l₁ ++ b :: l₂).Nodup := hdec ▸ h.nd k₀
  have hbnew : b ∉ l₁ ++ l₂ := by
    intro hx
    rcases List.mem_append.mp hx with h1 | h1
    · exact (List.disjoint_of_nodup_append hnodup) h1 (List.mem_cons_self b l₂)
    · exact (List.nodup_cons.mp hnodup.of_append_right).1 h1
  have hnot : ∀ k, b ∉ (Function.update ls k₀ (l₁ ++ l₂)) k :=
    update_nonmember hbnew (fun k hk => h.disj k₀ k (fun hc => hk hc.symm) b hmem)
  exact setBlk_nonmember_preserves (setBlk_nonmember_preserves hinv hnot) hnot

theorem nodup_head_decomp {tl l₁ l₂ : List Nat} {b : Nat}
    (hnd : (b :: tl).Nodup) (hdec : b :: tl = l₁ ++ b :: l₂) :
    l₁ = [] ∧ l₂ = tl := by
  cases l₁ with
  | nil =>
    rw [List.nil_append] at hdec
    injection hdec with h1 h2
    exact ⟨rfl, h2.symm⟩
  | cons c l₁' =>
    rw [List.cons_append] at hdec
    injection hdec with h1 h2
    have hbtl : b ∉ tl := (List.nodup_cons.mp hnd).1
    rw [h2] at hbtl
    exact absurd (List.mem_append_right l₁' (List.mem_cons_self b l₂)) hbtl

/-- The Greedy bucket loop from bucket `k` downward, on a well-formed state
with some non-empty bucket in `1..k`: it pops the head of the highest
non-empty bucket, does not assert, leaves the popped block's own record
untouched (its `prevBlock` already `BLOCK_NONE`), and preserves the
invariant. -/
theorem greedyGetAux_found {s : GcState} {ls : Nat → List Nat} (h : Inv s ls) :
    ∀ k, k ≤ s.slicesPerBlock → (∃ j, 1 ≤ j ∧ j ≤ k ∧ ls j ≠ []) →
    ∃ kStar tl,
      1 ≤ kStar ∧ kStar ≤ k ∧ ls kStar = (greedyGetAux s k).1 :: tl ∧
      (greedyGetAux s k).2.2 = false ∧
      (greedyGetAux s k).2.1.blocks (greedyGetAux s k).1 = s.blocks (greedyGetAux s k).1 ∧
      (s.blocks (greedyGetAux s k).1).prevBlock = BLOCK_NONE ∧
      (s.blocks (greedyGetAux s k).1).nextBlock = tl.headD BLOCK_NONE ∧
      Inv (greedyGetAux s k).2.1 (Function.update ls kStar tl) := by
  intro k
  induction k with
  | zero =>
    rintro _ ⟨j, h1, h2, _⟩
    omega
  | succ k ih =>
    intro hkS hex
    by_cases hhead : s.headBlock (k + 1) = BLOCK_NONE
    · -- bucket k+1 empty: recurse
      have hl : ls (k + 1) = [] :=
        (head_eq_none_iff (h.rep (k + 1) hkS) (fun x hx => h.mem_ne_none hx)).mp hhead
      have haux : greedyGetAux s (k + 1) = greedyGetAux s k := by
        conv_lhs => unfold greedyGetAux
        rw [if_neg (not_not_intro hhead)]
      obtain ⟨j, h1, h2, h3⟩ := hex
      have hj : j ≤ k := by
        rcases Nat.lt_or_ge j (k + 1) with hlt | hge
        · omega
        · exfalso
          exact h3 (by have : j = k + 1 := by omega
                       rw [this]
                       exact hl)
      obtain ⟨kStar, tl, a1, a2, a3, a4, a5, a6, a7, a8⟩ :=
        ih (by omega) ⟨j, h1, hj, h3⟩
      rw [haux]
      exact ⟨kStar, tl, a1, by omega, a3, a4, a5, a6, a7, a8⟩
    · -- bucket k+1 non-empty: pop its head
      have hrep := h.rep (k + 1) hkS
      have hlne : ls (k + 1) ≠ [] := by
        intro he
        exact hhead ((head_eq_none_iff hrep (fun x hx => h.mem_ne_none hx)).mpr he)
      obtain ⟨b, tl0, hl0⟩ : ∃ b tl0, ls (k + 1) = b :: tl0 := by
        cases hls : ls (k + 1) with
        | nil => exact absurd hls hlne
        | cons x xs => exact ⟨x, xs, rfl⟩
      have hmemb : b ∈ ls (k + 1) := hl0 ▸ List.mem_cons_self b tl0
      obtain ⟨l₁, l₂, hdec, hinv⟩ := selectiveGet_preserves h hkS hmemb
      obtain ⟨he1, he2⟩ := nodup_head_decomp (hl0 ▸ h.nd (k + 1)) (hl0 ▸ hdec)
      subst he1
      have hl : ls (k + 1) = b :: l₂ := by rw [hl0, he2]
      have hb : s.headBlock (k + 1) = b := by
        rw [hrep.1, hl]
        rfl
      obtain ⟨hprevb, hnextb⟩ := member_fields hrep (by rw [hl, List.nil_append])
      have hcntb : (s.blocks b).invalidSliceCnt = k + 1 := hrep.2.2.2.2 b hmemb
      have hbtl : b ∉ l₂ := (List.nodup_cons.mp (hl ▸ h.nd (k + 1))).1
      -- the popped-state expression coincides with the Selective unlink
      have hpop : greedyGetAux s (k + 1)
          = (b, selectiveGetFromGcVictimList s b, false) := by
        conv_lhs => unfold greedyGetAux
        rw [if_pos (by rw [hb]; exact fun he => h.mem_ne_none hmemb he)]
        unfold selectiveGetFromGcVictimList
        rw [hb, hcntb]
        cases l₂ with
        | nil => simp [hnextb, hprevb]
        | cons n tl' =>
          have hnn : n ≠ BLOCK_NONE :=
            h.mem_ne_none (hl ▸ List.mem_cons_of_mem b (List.mem_cons_self n tl'))
          simp [hnextb, hprevb, hnn]
      rw [hpop]
      refine ⟨k + 1, l₂, by omega, by omega, hl, rfl, ?_, by simpa using hprevb,
        by simpa using hnextb, by simpa using hinv⟩
      -- the unlink never writes the popped block's own record
      show (selectiveGetFromGcVictimList s b).blocks b = s.blocks b
      unfold selectiveGetFromGcVictimList
      rw [hcntb]
      cases l₂ with
      | nil => simp [hnextb, hprevb]
      | cons n tl' =>
        have hnb : n ≠ b := fun he => hbtl (he ▸ List.mem_cons_self n tl')
        have hnn : n ≠ BLOCK_NONE :=
          h.mem_ne_none (hl ▸ List.mem_cons_of_mem b (List.mem_cons_self n tl'))
        simp [hnextb, hprevb, hnn, Ne.symm hnb]

theorem greedyGetAux_empty {s : GcState} :
    ∀ k, (∀ j, 1 ≤ j → j ≤ k → s.headBlock j = BLOCK_NONE) →
    greedyGetAux s k = (BLOCK_FAIL, s, true) := by
  intro k
  induction k with
  | zero => intro _; rfl
  | succ k ih =>
    intro hall
    unfold greedyGetAux
    rw [if_neg (not_not_intro (hall (k + 1) (by omega) (by omega)))]
    exact ih (fun j h1 h2 => hall j h1 (by omega))

/-! ### The best-candidate fold -/

theorem foldl_best_stay (score : Nat → Nat) :
    ∀ (cands : List Nat) (acc : Nat × Nat), (∀ b ∈ cands, score b ≤ acc.2) →
    cands.foldl (fun best b => if score b > best.2 then (b, score b) else best) acc = acc := by
  intro cands
  induction cands with
  | nil => intro acc _; rfl
  | cons c rest ih =>
    intro acc hall
    rw [List.foldl_cons, if_neg (not_lt.mpr (hall c (List.mem_cons_self c rest)))]
    exact ih acc (fun b hb => hall b (List.mem_cons_of_mem c hb))

theorem foldl_best_found (score : Nat → Nat) :
    ∀ (cands : List Nat) (acc : Nat × Nat), (∃ b ∈ cands, acc.2 < score b) →
    ∃ pre post,
      cands = pre
        ++ (cands.foldl (fun best b => if score b > best.2 then (b, score b) else best) acc).1
        :: post ∧
      (cands.foldl (fun best b => if score b > best.2 then (b, score b) else best) acc).2
        = score (cands.foldl (fun best b => if score b > best.2 then (b, score b) else best) acc).1 ∧
      acc.2 < (cands.foldl (fun best b => if score b > best.2 then (b, score b) else best) acc).2 ∧
      (∀ x ∈ pre, score x
        < (cands.foldl (fun best b => if score b > best.2 then (b, score b) else best) acc).2) ∧
      (∀ x ∈ post, score x
        ≤ (cands.foldl (fun best b => if score b > best.2 then (b, score b) else best) acc).2) := by
  intro cands
  induction cands with
  | nil =>
    rintro acc ⟨b, hb, _⟩
    exact absurd hb (List.not_mem_nil b)
  | cons c rest ih =>
    intro acc hex
    by_cases hc : acc.2 < score c
    · rw [List.foldl_cons, if_pos hc]
      by_cases hrest : ∃ b ∈ rest, score c < score b
      · obtain ⟨pre', post', e1, e2, e3, e4, e5⟩ := ih (c, score c) hrest
        refine ⟨c :: pre', post',
          by rw [List.cons_append]; exact congrArg (List.cons c) e1, e2,
          lt_trans hc e3, ?_, e5⟩
        intro x hx
        rcases List.mem_cons.mp hx with h1 | h1
        · subst h1
          exact e3
        · exact e4 x h1
      · push_neg at hrest
        have hstay := foldl_best_stay score rest (c, score c) hrest
        rw [hstay]
        exact ⟨[], rest, rfl, rfl, hc, fun x hx => absurd hx (List.not_mem_nil x),
          fun x hx => hrest x hx⟩
    · rw [List.foldl_cons, if_neg hc]
      obtain ⟨b, hb, hsb⟩ := hex
      have hbrest : b ∈ rest := by
        rcases List.mem_cons.mp hb with h1 | h1
        · subst h1
          exact absurd hsb hc
        · exact h1
      obtain ⟨pre', post', e1, e2, e3, e4, e5⟩ := ih acc ⟨b, hbrest, hsb⟩
      refine ⟨c :: pre', post',
        by rw [List.cons_append]; exact congrArg (List.cons c) e1, e2, e3, ?_, e5⟩
      intro x hx
      rcases List.mem_cons.mp hx with h1 | h1
      · subst h1
        exact lt_of_le_of_lt (not_lt.mp hc) e3
      · exact e4 x h1

theorem bestScan_all_zero (score : Nat → Nat) (cands : List Nat)
    (h : ∀ b ∈ cands, score b = 0) : bestScan score cands = (BLOCK_FAIL, 0) :=
  foldl_best_stay score cands (BLOCK_FAIL, 0) (fun b hb => le_of_eq (h b hb))

theorem bestScan_pos (score : Nat → Nat) (cands : List Nat)
    (h : ∃ b ∈ cands, 0 < score b) :
    ∃ pre post, cands = pre ++ (bestScan score cands).1 :: post ∧
      (bestScan score cands).2 = score (bestScan score cands).1 ∧
      0 < (bestScan score cands).2 ∧
      (∀ x ∈ pre, score x < (bestScan score cands).2) ∧
      (∀ x ∈ post, score x ≤ (bestScan score cands).2) :=
  foldl_best_found score cands (BLOCK_FAIL, 0) h

theorem foldl_best_mem (score : Nat → Nat) :
    ∀ (cands : List Nat) (acc : Nat × Nat),
    (cands.foldl (fun best b => if score b > best.2 then (b, score b) else best) acc).1 = acc.1 ∨
    (cands.foldl (fun best b => if score b > best.2 then (b, score b) else best) acc).1 ∈ cands := by
  intro cands
  induction cands with
  | nil => intro acc; exact Or.inl rfl
  | cons c rest ih =>
    intro acc
    rw [List.foldl_cons]
    by_cases hc : score c > acc.2
    · rw [if_pos hc]
      rcases ih (c, score c) with h1 | h1
      · exact Or.inr (h1 ▸ List.mem_cons_self c rest)
      · exact Or.inr (List.mem_cons_of_mem c h1)
    · rw [if_neg hc]
      rcases ih acc with h1 | h1
      · exact Or.inl h1
      · exact Or.inr (List.mem_cons_of_mem c h1)

theorem cbGet_eq_scanSelect (s : GcState) :
    cbGetFromGcVictimList s = scanSelect s (calculateCostBenefitScore s) := rfl

theorem catGet_eq_scanSelect (s : GcState) :
    catGetFromGcVictimList s = scanSelect s (calculateCatScore s) := rfl

theorem scanSelect_all_zero {s : GcState} (score : Nat → Nat)
    (hz : ∀ b ∈ scanList s, score b = 0) :
    scanSelect s score = (BLOCK_FAIL, s, true) := by
  unfold scanSelect
  rw [bestScan_all_zero score _ hz]
  simp

theorem scanSelect_pos {s : GcState} {ls : Nat → List Nat} (h : Inv s ls)
    (score : Nat → Nat) (hp : ∃ b ∈ scanList s, 0 < score b) :
    ∃ pre post,
      scanList s = pre ++ (scanSelect s score).1 :: post ∧
      (scanSelect s score).2.2 = false ∧
      (scanSelect s score).1 ∈ scanList s ∧
      (scanSelect s score).1 ≠ BLOCK_FAIL ∧
      (∀ x ∈ pre, score x < score (scanSelect s score).1) ∧
      (∀ x ∈ scanList s, score x ≤ score (scanSelect s score).1) ∧
      (scanSelect s score).2.1 = detachBlockFromGcList s (scanSelect s score).1 := by
  obtain ⟨pre, post, e1, e2, e3, e4, e5⟩ := bestScan_pos score (scanList s) hp
  have hmem : (bestScan score (scanList s)).1 ∈ scanList s := by
    have hmem0 : (bestScan score (scanList s)).1
        ∈ pre ++ (bestScan score (scanList s)).1 :: post :=
      List.mem_append_right pre (List.mem_cons_self _ post)
    rw [← e1] at hmem0
    exact hmem0
  have hfail : (bestScan score (scanList s)).1 ≠ BLOCK_FAIL := by
    obtain ⟨k, _, _, hmk⟩ := (mem_scanList h).mp hmem
    exact h.mem_ne_fail hmk
  have hsel : scanSelect s score
      = ((bestScan score (scanList s)).1,
         detachBlockFromGcList s (bestScan score (scanList s)).1, false) := by
    unfold scanSelect
    rw [if_pos hfail]
  have hb1 : (scanSelect s score).1 = (bestScan score (scanList s)).1 := by
    rw [hsel]
  rw [hb1]
  refine ⟨pre, post, e1, by rw [hsel], hmem, hfail, ?_, ?_, by rw [hsel]⟩
  · intro x hx
    rw [← e2]
    exact e4 x hx
  · intro x hx
    rw [e1] at hx
    rcases List.mem_append.mp hx with h1 | h1
    · exact le_of_lt (by rw [← e2]; exact e4 x h1)
    · rcases List.mem_cons.mp h1 with h1 | h1
      · subst h1
        exact le_rfl
      · rw [← e2]
        exact e5 x h1

theorem scanSelect_assert_iff {s : GcState} {ls : Nat → List Nat} (h : Inv s ls)
    (score : Nat → Nat) :
    (scanSelect s score).2.2 = true ↔ ∀ b ∈ scanList s, score b = 0 := by
  constructor
  · intro ha
    by_contra hz
    push_neg at hz
    obtain ⟨b, hb, hbz⟩ := hz
    obtain ⟨_, _, _, e2, _, _, _, _, _⟩ :=
      scanSelect_pos h score ⟨b, hb, Nat.pos_of_ne_zero hbz⟩
    rw [e2] at ha
    exact Bool.false_ne_true ha
  · intro hz
    rw [scanSelect_all_zero score hz]

/-- When the scan-based selection does not assert, the invariant survives:
the selected block is a candidate and `DetachBlockFromGcList` removes it. -/
theorem scanSelect_preserves {s : GcState} {ls : Nat → List Nat} (h : Inv s ls)
    (score : Nat → Nat) (hna : (scanSelect s score).2.2 = false) :
    ∃ ls', Inv (scanSelect s score).2.1 ls' ∧
      ∀ k x, x ∈ ls' k → x ∈ ls k := by
  have hfail : (bestScan score (scanList s)).1 ≠ BLOCK_FAIL := by
    intro he
    have : scanSelect s score = (BLOCK_FAIL, s, true) := by
      unfold scanSelect
      rw [if_neg (not_not_intro he), he]
    rw [this] at hna
    simp at hna
  have hmem : (bestScan score (scanList s)).1 ∈ scanList s := by
    rcases foldl_best_mem score (scanList s) (BLOCK_FAIL, 0) with h1 | h1
    · exact absurd h1 hfail
    · exact h1
  obtain ⟨k₀, hk1, hk₀, hmk⟩ := (mem_scanList h).mp hmem
  obtain ⟨l₁, l₂, hdec, hinv⟩ := detach_preserves h hk₀ hmk
  have hsel : (scanSelect s score).2.1
      = detachBlockFromGcList s (bestScan score (scanList s)).1 := by
    unfold scanSelect
    rw [if_pos hfail]
  refine ⟨Function.update ls k₀ (l₁ ++ l₂), by rw [hsel]; exact hinv, ?_⟩
  intro k x hx
  by_cases hkc : k = k₀
  · subst hkc
    rw [Function.update_same] at hx
    rw [hdec]
    rcases List.mem_append.mp hx with h1 | h1
    · exact List.mem_append_left _ h1
    · exact List.mem_append_right _ (List.mem_cons_of_mem _ h1)
  · rw [Function.update_noteq hkc] at hx
    exact hx

/-! ## Scoring arithmetic -/

theorem usub32_of_le {a b : Nat} (hb : b ≤ a) (ha : a < U32) : usub32 a b = a - b := by
  unfold usub32
  have h1 : a % U32 = a := Nat.mod_eq_of_lt ha
  have h2 : b % U32 = b := Nat.mod_eq_of_lt (lt_of_le_of_lt hb ha)
  rw [h1, h2]
  have h3 : a + U32 - b = (a - b) + U32 := by
    have hU : U32 = 4294967296 := rfl
    omega
  rw [h3, Nat.add_mod_right]
  exact Nat.mod_eq_of_lt (by
    have hU : U32 = 4294967296 := rfl
    omega)

/-- The Cost-Benefit code computes the specification's formula, for in-range
inputs (`I ≤ P`, block counters fitting their 32-bit C types with room for
the `+1` offsets). -/
theorem calculateCostBenefitScore_eq {s : GcState} {b : Nat}
    (hIP : (s.blocks b).invalidSliceCnt ≤ s.pagesPerBlock)
    (hP : s.pagesPerBlock + 1 < U32)
    (hA : usub32 s.gcActivityTick (s.gcLastTick b) + 1 < U32) :
    calculateCostBenefitScore s b
      = costBenefitScoreSpec (s.blocks b).invalidSliceCnt
          (usub32 s.gcActivityTick (s.gcLastTick b)) s.pagesPerBlock := by
  have hU : U32 = 4294967296 := rfl
  set I := (s.blocks b).invalidSliceCnt with hIdef
  set A := usub32 s.gcActivityTick (s.gcLastTick b) with hAdef
  set P := s.pagesPerBlock with hPdef
  have hI32 : I < U32 := by omega
  have hP32 : P < U32 := by omega
  simp only [calculateCostBenefitScore]
  rw [← hAdef, ← hIdef, ← hPdef]
  rw [Nat.mod_eq_of_lt hI32, Nat.mod_eq_of_lt hP32, Nat.mod_eq_of_lt hA,
    usub32_of_le hIP hP32]
  have hV1 : (P - I + 1) % U32 = P - I + 1 := Nat.mod_eq_of_lt (by omega)
  rw [hV1]
  have hcost : P - I + 1 ≠ 0 := by omega
  have hbenefit : I * (A + 1) % U64 * P % U64 = I * (A + 1) * P % U64 := by
    rw [Nat.mod_mul_mod]
  rw [hbenefit]
  simp only [costBenefitScoreSpec]
  by_cases hz : I * (A + 1) * P % U64 = 0
  · rw [if_pos (Or.inr hz), if_pos hz, hz]
    rfl
  · have hcond : ¬(P - I + 1 = 0 ∨ I * (A + 1) * P % U64 = 0) := by
      push_neg
      exact ⟨hcost, hz⟩
    rw [if_neg hcond, if_neg hz]

/-- The CAT code computes the specification's formula, for in-range inputs. -/
theorem calculateCatScore_eq {s : GcState} {b : Nat}
    (hIP : (s.blocks b).invalidSliceCnt ≤ s.pagesPerBlock)
    (hP : s.pagesPerBlock + 1 < U32)
    (hA : usub32 s.gcActivityTick (s.gcLastTick b) + 1 < U32)
    (hW : (s.blocks b).eraseCnt + 1 < U32) :
    calculateCatScore s b
      = catScoreSpec (s.blocks b).invalidSliceCnt
          (usub32 s.gcActivityTick (s.gcLastTick b))
          (s.blocks b).eraseCnt s.pagesPerBlock := by
  have hU : U32 = 4294967296 := rfl
  have hU64 : U64 = 18446744073709551616 := rfl
  set I := (s.blocks b).invalidSliceCnt with hIdef
  set A := usub32 s.gcActivityTick (s.gcLastTick b) with hAdef
  set P := s.pagesPerBlock with hPdef
  set W := (s.blocks b).eraseCnt with hWdef
  have hI32 : I < U32 := by omega
  have hP32 : P < U32 := by omega
  have hW32 : W < U32 := by omega
  simp only [calculateCatScore]
  rw [← hAdef, ← hIdef, ← hPdef, ← hWdef]
  rw [Nat.mod_eq_of_lt hI32, Nat.mod_eq_of_lt hW32, Nat.mod_eq_of_lt hA,
    usub32_of_le hIP hP32]
  have hI1 : (I + 1) % U32 = I + 1 := Nat.mod_eq_of_lt (by omega)
  have hV1 : (P - I + 1) % U32 = P - I + 1 := Nat.mod_eq_of_lt (by omega)
  have hW1 : (W + 1) % U32 = W + 1 := Nat.mod_eq_of_lt (by omega)
  rw [hI1, hV1, hW1]
  have hnum : (I + 1) * (A + 1) % U64 = (I + 1) * (A + 1) :=
    Nat.mod_eq_of_lt (by
      calc (I + 1) * (A + 1) < U32 * U32 :=
        Nat.mul_lt_mul_of_lt_of_lt (by omega) (by omega)
      _ = U64 := by rw [hU, hU64]
      _ ≤ U64 := le_rfl)
  have hden : (P - I + 1) * (W + 1) % U64 = (P - I + 1) * (W + 1) :=
    Nat.mod_eq_of_lt (by
      calc (P - I + 1) * (W + 1) < U32 * U32 :=
        Nat.mul_lt_mul_of_lt_of_lt (by omega) (by omega)
      _ = U64 := by rw [hU, hU64]
      _ ≤ U64 := le_rfl)
  have hdenz : (P - I + 1) * (W + 1) ≠ 0 := by positivity
  have hnumz : (I + 1) * (A + 1) ≠ 0 := by positivity
  simp only [catScoreSpec]
  rw [hnum, hden, if_neg hdenz, if_neg hnumz]

/-- Lower wear never lowers the CAT score: with `(I, V, A)` shared and the
numerator small enough that the quotient is exact, the block with the smaller
erase count scores at least as high. -/
theorem catScore_wear_antitone {s : GcState} {x y : Nat}
    (hI : (s.blocks y).invalidSliceCnt = (s.blocks x).invalidSliceCnt)
    (hT : s.gcLastTick y = s.gcLastTick x)
    (hW : (s.blocks y).eraseCnt < (s.blocks x).eraseCnt)
    (hIP : (s.blocks x).invalidSliceCnt ≤ s.pagesPerBlock)
    (hP : s.pagesPerBlock + 1 < U32)
    (hA : usub32 s.gcActivityTick (s.gcLastTick x) + 1 < U32)
    (hWx : (s.blocks x).eraseCnt + 1 < U32)
    (hnum : ((s.blocks x).invalidSliceCnt + 1)
        * (usub32 s.gcActivityTick (s.gcLastTick x) + 1) < U32) :
    calculateCatScore s x ≤ calculateCatScore s y := by
  have hU : U32 = 4294967296 := rfl
  rw [calculateCatScore_eq hIP hP hA (by omega),
    calculateCatScore_eq (hI ▸ hIP) hP (hT ▸ hA) (by omega), hI, hT]
  set I := (s.blocks x).invalidSliceCnt
  set A := usub32 s.gcActivityTick (s.gcLastTick x)
  set P := s.pagesPerBlock
  unfold catScoreSpec
  have hnumv : (I + 1) * (A + 1) % U64 = (I + 1) * (A + 1) :=
    Nat.mod_eq_of_lt (by
      have hU64 : U64 = 18446744073709551616 := rfl
      omega)
  rw [hnumv]
  have hnz : (I + 1) * (A + 1) ≠ 0 := by positivity
  rw [if_neg hnz, if_neg hnz]
  have hdx : (P - I + 1) * ((s.blocks x).eraseCnt + 1) % U64
      = (P - I + 1) * ((s.blocks x).eraseCnt + 1) :=
    Nat.mod_eq_of_lt (by
      have hU64 : U64 = 18446744073709551616 := rfl
      have h1 : P - I + 1 < U32 := by omega
      have h2 : (s.blocks x).eraseCnt + 1 < U32 := hWx
      calc (P - I + 1) * ((s.blocks x).eraseCnt + 1) < U32 * U32 :=
        Nat.mul_lt_mul_of_lt_of_lt h1 h2
      _ = U64 := by rw [hU, hU64]
      _ ≤ U64 := le_rfl)
  have hdy : (P - I + 1) * ((s.blocks y).eraseCnt + 1) % U64
      = (P - I + 1) * ((s.blocks y).eraseCnt + 1) :=
    Nat.mod_eq_of_lt (by
      have hU64 : U64 = 18446744073709551616 := rfl
      have h1 : P - I + 1 < U32 := by omega
      have h2 : (s.blocks y).eraseCnt + 1 < U32 := by omega
      calc (P - I + 1) * ((s.blocks y).eraseCnt + 1) < U32 * U32 :=
        Nat.mul_lt_mul_of_lt_of_lt h1 h2
      _ = U64 := by rw [hU, hU64]
      _ ≤ U64 := le_rfl)
  rw [hdx, hdy]
  have hqx : (I + 1) * (A + 1) / ((P - I + 1) * ((s.blocks x).eraseCnt + 1)) < U32 :=
    lt_of_le_of_lt (Nat.div_le_self _ _) (by omega)
  have hqy : (I + 1) * (A + 1) / ((P - I + 1) * ((s.blocks y).eraseCnt + 1)) < U32 :=
    lt_of_le_of_lt (Nat.div_le_self _ _) (by omega)
  rw [Nat.mod_eq_of_lt hqx, Nat.mod_eq_of_lt hqy]
  apply Nat.div_le_div_left
  · exact Nat.mul_le_mul_left _ (by omega)
  · positivity

/-! ## Migration-trace reasoning -/

theorem writeShape_of_no_writes {tr : List Ev}
    (h : ∀ e ∈ tr, isEnqWrite e = false) : WriteShape tr := by
  intro i d L hw
  have hmem : Ev.enqWrite d L ∈ tr := List.get?_mem hw
  have := h _ hmem
  simp [isEnqWrite] at this

theorem writeShape_page_append {v L₀ d₀ : Nat} {rest : List Ev}
    (h : WriteShape rest) : WriteShape (pageEvents v L₀ d₀ ++ rest) := by
  intro i d L hw
  by_cases hi : i < 8
  · rw [List.get?_append (by simp [pageEvents]; omega)] at hw
    interval_cases i <;> simp [pageEvents] at hw
    obtain ⟨hd, hL⟩ := hw
    subst hd
    subst hL
    refine ⟨by omega, ?_, ?_, 2, v, by omega, ?_⟩ <;>
      rw [List.get?_append (by simp [pageEvents])] <;> rfl
  · push_neg at hi
    have hlen : (pageEvents v L₀ d₀).length = 8 := rfl
    rw [List.get?_append_right (by omega), hlen] at hw
    obtain ⟨h1, h2, h3, j, v', hj, hr⟩ := h (i - 8) d L hw
    refine ⟨by omega, ?_, ?_, j + 8, v', by omega, ?_⟩
    · rw [List.get?_append_right (by omega), hlen,
        show i - 1 - 8 = i - 8 - 1 from by omega]
      exact h2
    · rw [List.get?_append_right (by omega), hlen,
        show i - 2 - 8 = i - 8 - 2 from by omega]
      exact h3
    · rw [List.get?_append_right (by omega), hlen,
        show j + 8 - 8 = j from by omega]
      exact hr

theorem gcMigrateUpTo_succ (env : GcEnv) (victimBlockNo : Nat) (maps : MapState) (n : Nat) :
    gcMigrateUpTo env victimBlockNo maps (n + 1)
      = gcPageStep env victimBlockNo (gcMigrateUpTo env victimBlockNo maps n) n := by
  unfold gcMigrateUpTo
  rw [List.range_succ, List.foldl_append, List.foldl_cons, List.foldl_nil]

theorem gcPageStep_pass {env : GcEnv} {victimBlockNo pageNo : Nat} {acc : MigAcc}
    (h : acc.maps.virtToLog (env.vorg2VsaTranslation victimBlockNo pageNo) ≠ LSA_NONE ∧
        acc.maps.logToVirt
          (acc.maps.virtToLog (env.vorg2VsaTranslation victimBlockNo pageNo))
          = env.vorg2VsaTranslation victimBlockNo pageNo) :
    gcPageStep env victimBlockNo acc pageNo =
      { maps :=
          { virtToLog := Function.update acc.maps.virtToLog
              (env.findFreeVirtualSliceForGc acc.allocCnt)
              (acc.maps.virtToLog (env.vorg2VsaTranslation victimBlockNo pageNo)),
            logToVirt := Function.update acc.maps.logToVirt
              (acc.maps.virtToLog (env.vorg2VsaTranslation victimBlockNo pageNo))
              (env.findFreeVirtualSliceForGc acc.allocCnt) },
        trace := acc.trace
          ++ pageEvents (env.vorg2VsaTranslation victimBlockNo pageNo)
              (acc.maps.virtToLog (env.vorg2VsaTranslation victimBlockNo pageNo))
              (env.findFreeVirtualSliceForGc acc.allocCnt),
        allocCnt := acc.allocCnt + 1 } := by
  unfold gcPageStep
  rw [if_pos h]

theorem gcPageStep_fail {env : GcEnv} {victimBlockNo pageNo : Nat} {acc : MigAcc}
    (h : ¬(acc.maps.virtToLog (env.vorg2VsaTranslation victimBlockNo pageNo) ≠ LSA_NONE ∧
        acc.maps.logToVirt
          (acc.maps.virtToLog (env.vorg2VsaTranslation victimBlockNo pageNo))
          = env.vorg2VsaTranslation victimBlockNo pageNo)) :
    gcPageStep env victimBlockNo acc pageNo = acc := by
  unfold gcPageStep
  rw [if_neg h]

theorem gcMigrateUpTo_shape (env : GcEnv) (victimBlockNo : Nat) (maps : MapState) :
    ∀ n, ∃ segs : List (List Ev),
      (gcMigrateUpTo env victimBlockNo maps n).trace = segs.flatten ∧
      ∀ seg ∈ segs, ∃ v L d, seg = pageEvents v L d := by
  intro n
  induction n with
  | zero => exact ⟨[], rfl, by simp⟩
  | succ n ih =>
    obtain ⟨segs, h1, h2⟩ := ih
    rw [gcMigrateUpTo_succ]
    set acc := gcMigrateUpTo env victimBlockNo maps n with hacc
    by_cases hc : acc.maps.virtToLog (env.vorg2VsaTranslation victimBlockNo n) ≠ LSA_NONE ∧
        acc.maps.logToVirt
          (acc.maps.virtToLog (env.vorg2VsaTranslation victimBlockNo n))
          = env.vorg2VsaTranslation victimBlockNo n
    · rw [gcPageStep_pass hc]
      refine ⟨segs ++ [pageEvents (env.vorg2VsaTranslation victimBlockNo n)
        (acc.maps.virtToLog (env.vorg2VsaTranslation victimBlockNo n))
        (env.findFreeVirtualSliceForGc acc.allocCnt)], ?_, ?_⟩
      · show acc.trace ++ _ = _
        rw [h1, List.flatten_append]
        simp
      · intro seg hseg
        rcases List.mem_append.mp hseg with hs | hs
        · exact h2 seg hs
        · rw [List.mem_singleton] at hs
          exact ⟨_, _, _, hs⟩
    · rw [gcPageStep_fail hc]
      exact ⟨segs, h1, h2⟩

theorem writeShape_join {segs : List (List Ev)} {tail : List Ev}
    (hsegs : ∀ seg ∈ segs, ∃ v L d, seg = pageEvents v L d)
    (htail : WriteShape tail) : WriteShape (segs.flatten ++ tail) := by
  induction segs with
  | nil => simpa using htail
  | cons seg segs ih =>
    rw [List.flatten_cons, List.append_assoc]
    have ih' := ih (fun sg hsg => hsegs sg (List.mem_cons_of_mem seg hsg))
    obtain ⟨v, L, d, hseg⟩ := hsegs seg (List.mem_cons_self seg segs)
    rw [hseg]
    exact writeShape_page_append ih'

/-! ## Assorted helper lemmas for the claim theorems -/

theorem inv_empty {s : GcState}
    (hh : ∀ k, k ≤ s.slicesPerBlock → s.headBlock k = BLOCK_NONE)
    (ht : ∀ k, k ≤ s.slicesPerBlock → s.tailBlock k = BLOCK_NONE)
    (hn : s.numBlocks ≤ BLOCK_FAIL) :
    Inv s (fun _ => []) := by
  refine ⟨?_, fun _ _ => rfl, fun _ => List.nodup_nil, ?_, ?_, hn⟩
  · intro k hk
    exact ⟨hh k hk, ht k hk, trivial, trivial, fun b hb => absurd hb (List.not_mem_nil b)⟩
  · intro j k _ b hb
    exact absurd hb (List.not_mem_nil b)
  · intro k b hb
    exact absurd hb (List.not_mem_nil b)

theorem wBase_inv : Inv wBase (fun _ => []) :=
  inv_empty (fun _ _ => rfl) (fun _ _ => rfl) (by decide)

theorem wBase6_inv : Inv wBase6 (fun _ => []) :=
  inv_empty (fun _ _ => rfl) (fun _ _ => rfl) (by decide)

theorem listInsert_tick (s : GcState) (b c : Nat) :
    (listInsert s b c).gcActivityTick = s.gcActivityTick := by
  unfold listInsert
  split <;> rfl

theorem selectiveGet_tick (s : GcState) (b : Nat) :
    (selectiveGetFromGcVictimList s b).gcActivityTick = s.gcActivityTick := by
  simp only [selectiveGetFromGcVictimList]
  split
  · rfl
  · split
    · rfl
    · split
      · rfl
      · rfl

theorem detach_tick (s : GcState) (b : Nat) :
    (detachBlockFromGcList s b).gcActivityTick = s.gcActivityTick := by
  unfold detachBlockFromGcList
  simpa using selectiveGet_tick s b

theorem greedyGetAux_tick (s : GcState) :
    ∀ k, ((greedyGetAux s k).2.1).gcActivityTick = s.gcActivityTick := by
  intro k
  induction k with
  | zero => rfl
  | succ k ih =>
    simp only [greedyGetAux]
    split
    · split <;> rfl
    · exact ih

theorem scanSelect_tick (s : GcState) (score : Nat → Nat) :
    ((scanSelect s score).2.1).gcActivityTick = s.gcActivityTick := by
  simp only [scanSelect]
  split
  · exact detach_tick s _
  · rfl

theorem listInsert_next_self {s : GcState} {b c : Nat} (ht : s.tailBlock c ≠ b) :
    ((listInsert s b c).blocks b).nextBlock = BLOCK_NONE := by
  unfold listInsert
  split
  · simp [Ne.symm ht]
  · simp

theorem cbPut_next_self {s : GcState} {b c : Nat} (ht : s.tailBlock c ≠ b) :
    ((cbPutToGcVictimList s b c).blocks b).nextBlock = BLOCK_NONE := by
  unfold cbPutToGcVictimList
  by_cases hc : c ≠ 0
  · rw [if_pos hc]
    exact listInsert_next_self ht
  · rw [if_neg hc]
    exact listInsert_next_self ht

theorem catPut_next_self {s : GcState} {b c : Nat} (ht : s.tailBlock c ≠ b) :
    ((catPutToGcVictimList s b c).blocks b).nextBlock = BLOCK_NONE := by
  unfold catPutToGcVictimList
  by_cases hc : c ≠ 0
  · rw [if_pos hc]
    exact listInsert_next_self ht
  · rw [if_neg hc]
    exact listInsert_next_self ht

theorem inv_tick_irrelevant {s : GcState} {ls : Nat → List Nat} (h : Inv s ls)
    {t : Nat} {lt : Nat → Nat} :
    Inv { s with gcActivityTick := t, gcLastTick := lt } ls :=
  h.frame (fun _ _ _ => rfl) (fun _ _ => rfl) (fun _ _ => rfl) rfl rfl

/-! ## Claim theorems -/

/-- C1 (counterexample): on the CAT build, a die can hold a candidate in
bucket 1 (so not all buckets `1..S` are empty) while `GetFromGcVictimList`
still returns `BLOCK_FAIL` and fires the fatal assertion, because the
candidate's truncated integer score is 0 and the scan only updates its best
on a strictly positive score. -/
theorem claim_C1_counterexample :
    cexC1state.headBlock 1 ≠ BLOCK_NONE ∧ 1 ≤ cexC1state.slicesPerBlock ∧
    calculateCatScore cexC1state 0 = 0 ∧
    (catGetFromGcVictimList cexC1state).1 = BLOCK_FAIL ∧
    (catGetFromGcVictimList cexC1state).2.2 = true := by
  refine ⟨by decide, by decide, by decide, by decide, by decide⟩

/-- C1 (amended): on a well-formed die, the Greedy `GetFromGcVictimList`
asserts exactly when buckets `1..S` are all empty and otherwise pops a bucket
member (never `BLOCK_FAIL`); the Cost-Benefit and CAT builds assert exactly
when NO candidate has a positive (truncated) score, and whenever some
candidate's score is positive they return a candidate without asserting. -/
theorem claim_C1_amended : ∀ (s : GcState) (ls : Nat → List Nat), Inv s ls →
    (((getFromGcVictimList s).2.2 = true ↔
        ∀ j, 1 ≤ j → j ≤ s.slicesPerBlock → ls j = []) ∧
      ((∃ j, 1 ≤ j ∧ j ≤ s.slicesPerBlock ∧ ls j ≠ []) →
        (getFromGcVictimList s).2.2 = false ∧
        (getFromGcVictimList s).1 ≠ BLOCK_FAIL ∧
        ∃ j, 1 ≤ j ∧ j ≤ s.slicesPerBlock ∧ (getFromGcVictimList s).1 ∈ ls j)) ∧
    (((cbGetFromGcVictimList s).2.2 = true ↔
        ∀ b ∈ scanList s, calculateCostBenefitScore s b = 0) ∧
      ((∃ b ∈ scanList s, 0 < calculateCostBenefitScore s b) →
        (cbGetFromGcVictimList s).2.2 = false ∧
        (cbGetFromGcVictimList s).1 ≠ BLOCK_FAIL ∧
        (cbGetFromGcVictimList s).1 ∈ scanList s)) ∧
    (((catGetFromGcVictimList s).2.2 = true ↔
        ∀ b ∈ scanList s, calculateCatScore s b = 0) ∧
      ((∃ b ∈ scanList s, 0 < calculateCatScore s b) →
        (catGetFromGcVictimList s).2.2 = false ∧
        (catGetFromGcVictimList s).1 ≠ BLOCK_FAIL ∧
        (catGetFromGcVictimList s).1 ∈ scanList s)) := by
  intro s ls h
  refine ⟨⟨?_, ?_⟩, ⟨?_, ?_⟩, ⟨?_, ?_⟩⟩
  · constructor
    · intro ha j h1 h2
      by_contra hne
      obtain ⟨kStar, tl, _, _, _, a4, _, _, _, _⟩ :=
        greedyGetAux_found h s.slicesPerBlock le_rfl ⟨j, h1, h2, hne⟩
      have hg : (getFromGcVictimList s).2.2 = false := a4
      rw [ha] at hg
      simp at hg
    · intro hall
      have hempty : ∀ j, 1 ≤ j → j ≤ s.slicesPerBlock → s.headBlock j = BLOCK_NONE := by
        intro j h1 h2
        exact (head_eq_none_iff (h.rep j h2) (fun x hx => h.mem_ne_none hx)).mpr
          (hall j h1 h2)
      show (greedyGetAux s s.slicesPerBlock).2.2 = true
      rw [greedyGetAux_empty s.slicesPerBlock hempty]
  · intro hex
    obtain ⟨kStar, tl, a1, a2, a3, a4, _, _, _, _⟩ :=
      greedyGetAux_found h s.slicesPerBlock le_rfl hex
    have hmem : (getFromGcVictimList s).1 ∈ ls kStar := by
      rw [a3]
      exact List.mem_cons_self _ tl
    exact ⟨a4, h.mem_ne_fail hmem, kStar, a1, a2, hmem⟩
  · rw [cbGet_eq_scanSelect]
    exact scanSelect_assert_iff h _
  · intro hp
    rw [cbGet_eq_scanSelect]
    obtain ⟨pre, post, _, e2, e3, e4, _, _, _⟩ := scanSelect_pos h _ hp
    exact ⟨e2, e4, e3⟩
  · rw [catGet_eq_scanSelect]
    exact scanSelect_assert_iff h _
  · intro hp
    rw [catGet_eq_scanSelect]
    obtain ⟨pre, post, _, e2, e3, e4, _, _, _⟩ := scanSelect_pos h _ hp
    exact ⟨e2, e4, e3⟩

/-- C1 (witness): the amended theorem applied to a concrete die with an empty
index: the Greedy selection fires the assertion. -/
theorem claim_C1_witness : (getFromGcVictimList wBase).2.2 = true :=
  ((claim_C1_amended wBase (fun _ => []) wBase_inv).1.1).mpr (fun _ _ _ => rfl)

/-- C2: index well-formedness (`Inv`: every block in bucket `k` carries
`invalidSliceCnt = k`; head reaches tail via `nextBlock` with consistent
`prevBlock` back-links; head and tail are `BLOCK_NONE` together exactly for
the empty bucket; lists are duplicate-free and pairwise disjoint) is
preserved by all three builds of `PutToGcVictimList` under the stated
precondition, by `SelectiveGetFromGcVictimList` on a member, and by all
three builds of `GetFromGcVictimList`. -/
theorem claim_C2 :
    (∀ (s : GcState) (ls : Nat → List Nat) (b cnt : Nat), Inv s ls →
      (∀ k, b ∉ ls k) → b < s.numBlocks →
      (s.blocks b).invalidSliceCnt = cnt → cnt ≤ s.slicesPerBlock →
      Inv (putToGcVictimList s b cnt) (Function.update ls cnt (ls cnt ++ [b]))) ∧
    (∀ (s : GcState) (ls : Nat → List Nat) (b cnt : Nat), Inv s ls →
      (∀ k, b ∉ ls k) → b < s.numBlocks →
      (s.blocks b).invalidSliceCnt = cnt → cnt ≤ s.slicesPerBlock →
      Inv (cbPutToGcVictimList s b cnt) (Function.update ls cnt (ls cnt ++ [b]))) ∧
    (∀ (s : GcState) (ls : Nat → List Nat) (b cnt : Nat), Inv s ls →
      (∀ k, b ∉ ls k) → b < s.numBlocks →
      (s.blocks b).invalidSliceCnt = cnt → cnt ≤ s.slicesPerBlock →
      Inv (catPutToGcVictimList s b cnt) (Function.update ls cnt (ls cnt ++ [b]))) ∧
    (∀ (s : GcState) (ls : Nat → List Nat) (b k₀ : Nat), Inv s ls →
      k₀ ≤ s.slicesPerBlock → b ∈ ls k₀ →
      ∃ l₁ l₂, ls k₀ = l₁ ++ b :: l₂ ∧
        Inv (selectiveGetFromGcVictimList s b) (Function.update ls k₀ (l₁ ++ l₂))) ∧
    (∀ (s : GcState) (ls : Nat → List Nat), Inv s ls →
      (∃ j, 1 ≤ j ∧ j ≤ s.slicesPerBlock ∧ ls j ≠ []) →
      ∃ kStar tl, ls kStar = (getFromGcVictimList s).1 :: tl ∧
        Inv (getFromGcVictimList s).2.1 (Function.update ls kStar tl)) ∧
    (∀ (s : GcState) (ls : Nat → List Nat), Inv s ls →
      (cbGetFromGcVictimList s).2.2 = false →
      ∃ ls', Inv (cbGetFromGcVictimList s).2.1 ls') ∧
    (∀ (s : GcState) (ls : Nat → List Nat), Inv s ls →
      (catGetFromGcVictimList s).2.2 = false →
      ∃ ls', Inv (catGetFromGcVictimList s).2.1 ls') := by
  refine ⟨?_, ?_, ?_, ?_, ?_, ?_, ?_⟩
  · intro s ls b cnt h hb hbN hcnt hk
    exact listInsert_preserves h hb hbN hcnt hk
  · intro s ls b cnt h hb hbN hcnt hk
    unfold cbPutToGcVictimList
    by_cases hc : cnt ≠ 0
    · rw [if_pos hc]
      exact listInsert_preserves
        (h.frame (fun _ _ _ => rfl) (fun _ _ => rfl) (fun _ _ => rfl) rfl rfl)
        hb hbN hcnt hk
    · rw [if_neg hc]
      exact listInsert_preserves h hb hbN hcnt hk
  · intro s ls b cnt h hb hbN hcnt hk
    unfold catPutToGcVictimList
    by_cases hc : cnt ≠ 0
    · rw [if_pos hc]
      exact listInsert_preserves
        (h.frame (fun _ _ _ => rfl) (fun _ _ => rfl) (fun _ _ => rfl) rfl rfl)
        hb hbN hcnt hk
    · rw [if_neg hc]
      exact listInsert_preserves h hb hbN hcnt hk
  · intro s ls b k₀ h hk₀ hmem
    exact selectiveGet_preserves h hk₀ hmem
  · intro s ls h hex
    obtain ⟨kStar, tl, _, _, a3, _, _, _, _, a8⟩ :=
      greedyGetAux_found h s.slicesPerBlock le_rfl hex
    exact ⟨kStar, tl, a3, a8⟩
  · intro s ls h hna
    rw [cbGet_eq_scanSelect] at hna ⊢
    obtain ⟨ls', hinv, _⟩ := scanSelect_preserves h _ hna
    exact ⟨ls', hinv⟩
  · intro s ls h hna
    rw [catGet_eq_scanSelect] at hna ⊢
    obtain ⟨ls', hinv, _⟩ := scanSelect_preserves h _ hna
    exact ⟨ls', hinv⟩

/-- C2 (witness): inserting free block 0 (whose `invalidSliceCnt` is 2) into
bucket 2 of the concrete empty die keeps the index well-formed. -/
theorem claim_C2_witness :
    Inv (putToGcVictimList wBase 0 2)
      (Function.update (fun _ => ([] : List Nat)) 2 ((fun _ => ([] : List Nat)) 2 ++ [0])) :=
  claim_C2.1 wBase (fun _ => []) 0 2 wBase_inv (fun k => List.not_mem_nil 0)
    (by decide) rfl (by decide)

/-- C3: each pass of the copy loop processes its page exactly as guarded by
the liveness double check.  The first conjunct ties the fold to its per-page
step.  When the check passes (`virt_to_log[v] = L ≠ NONE` and
`log_to_virt[L] = v`), exactly one READ and one WRITE are submitted (with
their slot/buffer acquisitions) and afterwards `log_to_virt[L]` is the fresh
destination and `virt_to_log[destination] = L`.  When either check fails the
page is skipped silently: the accumulator — trace, allocation count, maps —
is unchanged, so no request slot and no temp buffer are acquired. -/
theorem claim_C3 : ∀ (env : GcEnv) (victimBlockNo : Nat) (maps : MapState) (n : Nat)
    (acc : MigAcc) (pageNo : Nat),
    gcMigrateUpTo env victimBlockNo maps (n + 1)
      = gcPageStep env victimBlockNo (gcMigrateUpTo env victimBlockNo maps n) n ∧
    ((acc.maps.virtToLog (env.vorg2VsaTranslation victimBlockNo pageNo) ≠ LSA_NONE ∧
      acc.maps.logToVirt (acc.maps.virtToLog (env.vorg2VsaTranslation victimBlockNo pageNo))
        = env.vorg2VsaTranslation victimBlockNo pageNo) →
      (gcPageStep env victimBlockNo acc pageNo).trace
          = acc.trace ++ pageEvents (env.vorg2VsaTranslation victimBlockNo pageNo)
              (acc.maps.virtToLog (env.vorg2VsaTranslation victimBlockNo pageNo))
              (env.findFreeVirtualSliceForGc acc.allocCnt) ∧
      (gcPageStep env victimBlockNo acc pageNo).trace.countP isEnqRead
          = acc.trace.countP isEnqRead + 1 ∧
      (gcPageStep env victimBlockNo acc pageNo).trace.countP isEnqWrite
          = acc.trace.countP isEnqWrite + 1 ∧
      (gcPageStep env victimBlockNo acc pageNo).maps.logToVirt
          (acc.maps.virtToLog (env.vorg2VsaTranslation victimBlockNo pageNo))
          = env.findFreeVirtualSliceForGc acc.allocCnt ∧
      (gcPageStep env victimBlockNo acc pageNo).maps.virtToLog
          (env.findFreeVirtualSliceForGc acc.allocCnt)
          = acc.maps.virtToLog (env.vorg2VsaTranslation victimBlockNo pageNo)) ∧
    (¬(acc.maps.virtToLog (env.vorg2VsaTranslation victimBlockNo pageNo) ≠ LSA_NONE ∧
      acc.maps.logToVirt (acc.maps.virtToLog (env.vorg2VsaTranslation victimBlockNo pageNo))
        = env.vorg2VsaTranslation victimBlockNo pageNo) →
      gcPageStep env victimBlockNo acc pageNo = acc) := by
  intro env victimBlockNo maps n acc pageNo
  refine ⟨gcMigrateUpTo_succ env victimBlockNo maps n, ?_, gcPageStep_fail⟩
  intro hpass
  rw [gcPageStep_pass hpass]
  refine ⟨rfl, ?_, ?_, ?_, ?_⟩
  · rw [List.countP_append]
    rfl
  · rw [List.countP_append]
    rfl
  · exact Function.update_same _ _ _
  · exact Function.update_same _ _ _

/-- C3 (witness): the concrete one-page environment in which page 0 holds
live logical slice 7; the copy loop appends the full READ/WRITE event block
and rewires both mapping directions to destination slice 100. -/
theorem claim_C3_witness :
    (gcPageStep cexC9env 5 ⟨cexC9maps, [], 0⟩ 0).trace = [] ++ pageEvents 0 7 100 ∧
    (gcPageStep cexC9env 5 ⟨cexC9maps, [], 0⟩ 0).maps.logToVirt 7 = 100 ∧
    (gcPageStep cexC9env 5 ⟨cexC9maps, [], 0⟩ 0).maps.virtToLog 100 = 7 := by
  have h := (claim_C3 cexC9env 5 cexC9maps 0 ⟨cexC9maps, [], 0⟩ 0).2.1 (by decide)
  exact ⟨h.1, h.2.2.2.1, h.2.2.2.2⟩

/-- C4: for in-range inputs (`I ≤ P` and each 32-bit counter with room for
its `+1` offset), `CalculateCostBenefitScore` computes exactly the
specification's `(I · (A+1) · P) / (V+1)` — 64-bit intermediate, 32-bit
narrowing, early 0 when the product is 0 — and `CalculateCatScore` computes
`((I+1) · (A+1)) / ((V+1) · (W+1))` the same way, with
`A = tick − last_tick` in unsigned modular arithmetic. -/
theorem claim_C4 : ∀ (s : GcState) (b : Nat),
    (s.blocks b).invalidSliceCnt ≤ s.pagesPerBlock →
    s.pagesPerBlock + 1 < U32 →
    usub32 s.gcActivityTick (s.gcLastTick b) + 1 < U32 →
    (s.blocks b).eraseCnt + 1 < U32 →
    calculateCostBenefitScore s b
      = costBenefitScoreSpec (s.blocks b).invalidSliceCnt
          (usub32 s.gcActivityTick (s.gcLastTick b)) s.pagesPerBlock ∧
    calculateCatScore s b
      = catScoreSpec (s.blocks b).invalidSliceCnt
          (usub32 s.gcActivityTick (s.gcLastTick b))
          (s.blocks b).eraseCnt s.pagesPerBlock := by
  intro s b hIP hP hA hW
  exact ⟨calculateCostBenefitScore_eq hIP hP hA, calculateCatScore_eq hIP hP hA hW⟩

/-- C4 (witness): at the spec's scenario values — block 2 of the witness die
has `I = 4`, `A = 0`, `P = 4`, `W = 0` — the Cost-Benefit score is
`(4·1·4)/1 = 16` and the CAT score is `(5·1)/(1·1) = 5`. -/
theorem claim_C4_witness :
    calculateCostBenefitScore wBase 2 = costBenefitScoreSpec 4 0 4 ∧
    calculateCatScore wBase 2 = catScoreSpec 4 0 0 4 ∧
    costBenefitScoreSpec 4 0 4 = 16 ∧ catScoreSpec 4 0 0 4 = 5 := by
  have h := claim_C4 wBase 2 (by decide) (by decide) (by decide) (by decide)
  exact ⟨h.1, h.2, by decide, by decide⟩

/-- C5 (counterexample): a die with one Cost-Benefit candidate (bucket 4,
age `2^28 − 1`) whose 64-bit score `4 · 2^28 · 4 = 2^32` narrows to 0: the
selection returns `BLOCK_FAIL` — not a candidate block — and asserts, so the
returned value is not a block dominating the candidates. -/
theorem claim_C5_counterexample :
    scanList cexC5state = [0] ∧
    calculateCostBenefitScore cexC5state 0 = 0 ∧
    (cbGetFromGcVictimList cexC5state).1 ∉ scanList cexC5state ∧
    (cbGetFromGcVictimList cexC5state).2.2 = true := by
  refine ⟨by decide, by decide, by decide, by decide⟩

/-- C5 (amended): on a well-formed die where some candidate has a positive
(truncated) Cost-Benefit score, the selection returns a candidate whose score
is maximal among all candidates at the moment of selection, and among the
maximal-scoring candidates the one encountered first in the descending
bucket scan (higher bucket first, then list order) is returned: every
earlier-scanned candidate scores strictly lower. -/
theorem claim_C5_amended : ∀ (s : GcState) (ls : Nat → List Nat), Inv s ls →
    (∃ b ∈ scanList s, 0 < calculateCostBenefitScore s b) →
    (cbGetFromGcVictimList s).2.2 = false ∧
    (cbGetFromGcVictimList s).1 ∈ scanList s ∧
    (∀ x ∈ scanList s, calculateCostBenefitScore s x
        ≤ calculateCostBenefitScore s (cbGetFromGcVictimList s).1) ∧
    ∃ pre post, scanList s = pre ++ (cbGetFromGcVictimList s).1 :: post ∧
      ∀ x ∈ pre, calculateCostBenefitScore s x
        < calculateCostBenefitScore s (cbGetFromGcVictimList s).1 := by
  intro s ls h hp
  rw [cbGet_eq_scanSelect]
  obtain ⟨pre, post, e1, e2, e3, e4, e5, e6, e7⟩ := scanSelect_pos h _ hp
  exact ⟨e2, e3, e6, pre, post, e1, e5⟩

/-- C5 (witness): the amended theorem at the concrete die holding block 2 in
bucket 4 with score 16: selection succeeds and returns a candidate. -/
theorem claim_C5_witness :
    (cbGetFromGcVictimList (putToGcVictimList wBase 2 4)).2.2 = false ∧
    (cbGetFromGcVictimList (putToGcVictimList wBase 2 4)).1
      ∈ scanList (putToGcVictimList wBase 2 4) := by
  have hInv : Inv (listInsert wBase 2 4)
      (Function.update (fun _ => ([] : List Nat)) 4
        ((fun _ => ([] : List Nat)) 4 ++ [2])) :=
    listInsert_preserves wBase_inv (fun k => List.not_mem_nil 2) (by decide) rfl
      (by decide)
  have h := claim_C5_amended (putToGcVictimList wBase 2 4) _ hInv
    ⟨2, by decide, by decide⟩
  exact ⟨h.1, h.2.1⟩

/-- C6 (counterexample): a die with exactly two CAT candidates agreeing on
`(I, V, A)` and differing in wear (21 vs 11) whose truncated integer scores
coincide (`⌊44/44⌋ = ⌊44/24⌋ = 1`): the scan's strict-improvement rule keeps
the first-encountered block 0, the HIGHER-wear one, refuting the claim. -/
theorem claim_C6_counterexample :
    scanList cexC6state = [0, 1] ∧
    (cexC6state.blocks 0).invalidSliceCnt = (cexC6state.blocks 1).invalidSliceCnt ∧
    cexC6state.gcLastTick 0 = cexC6state.gcLastTick 1 ∧
    (cexC6state.blocks 1).eraseCnt < (cexC6state.blocks 0).eraseCnt ∧
    calculateCatScore cexC6state 0 = calculateCatScore cexC6state 1 ∧
    (catGetFromGcVictimList cexC6state).1 = 0 := by
  refine ⟨by decide, by decide, by decide, by decide, by decide, by decide⟩

/-- C6 (amended): for any die with exactly two candidates that agree on
`(I, V, A)` and differ in wear — in either scan order — and whose score
arithmetic stays exact under the 32-bit narrowing (`P+1`, `A+1` and both
`W+1` below `2^32`, and `(I+1)·(A+1) < 2^32`): the lower-wear block never
scores lower; whenever the two truncated integer CAT scores DIFFER the
selection returns the candidate of minimal wear; on equal positive truncated
scores the first-encountered block wins instead; and when both truncated
scores are zero `BLOCK_FAIL` is returned.  The numerator bound is essential:
in `cexC6bstate` (age `2^31 − 1`, wears 1 vs 0) the narrowing zeroes the
lower-wear block's score, the truncated scores differ, yet the higher-wear
block is selected. -/
theorem claim_C6_amended :
    (∀ (s : GcState) (ls : Nat → List Nat) (x y : Nat),
      Inv s ls → scanList s = [x, y] →
      (s.blocks y).invalidSliceCnt = (s.blocks x).invalidSliceCnt →
      s.gcLastTick y = s.gcLastTick x →
      (s.blocks x).eraseCnt ≠ (s.blocks y).eraseCnt →
      (s.blocks x).invalidSliceCnt ≤ s.pagesPerBlock →
      s.pagesPerBlock + 1 < U32 →
      usub32 s.gcActivityTick (s.gcLastTick x) + 1 < U32 →
      (s.blocks x).eraseCnt + 1 < U32 →
      (s.blocks y).eraseCnt + 1 < U32 →
      ((s.blocks x).invalidSliceCnt + 1)
          * (usub32 s.gcActivityTick (s.gcLastTick x) + 1) < U32 →
      (((s.blocks y).eraseCnt < (s.blocks x).eraseCnt →
          calculateCatScore s x ≤ calculateCatScore s y) ∧
        ((s.blocks x).eraseCnt < (s.blocks y).eraseCnt →
          calculateCatScore s y ≤ calculateCatScore s x) ∧
        (calculateCatScore s x ≠ calculateCatScore s y →
          ((catGetFromGcVictimList s).1 = x ∨ (catGetFromGcVictimList s).1 = y) ∧
          (s.blocks (catGetFromGcVictimList s).1).eraseCnt
            = min (s.blocks x).eraseCnt (s.blocks y).eraseCnt) ∧
        (calculateCatScore s x = calculateCatScore s y →
          0 < calculateCatScore s x → (catGetFromGcVictimList s).1 = x) ∧
        (calculateCatScore s x = 0 → calculateCatScore s y = 0 →
          (catGetFromGcVictimList s).1 = BLOCK_FAIL))) ∧
    (scanList cexC6bstate = [0, 1] ∧
      (cexC6bstate.blocks 1).invalidSliceCnt
        = (cexC6bstate.blocks 0).invalidSliceCnt ∧
      cexC6bstate.gcLastTick 1 = cexC6bstate.gcLastTick 0 ∧
      (cexC6bstate.blocks 1).eraseCnt < (cexC6bstate.blocks 0).eraseCnt ∧
      calculateCatScore cexC6bstate 1 = 0 ∧
      calculateCatScore cexC6bstate 0 = 2147483648 ∧
      (catGetFromGcVictimList cexC6bstate).1 = 0) := by
  constructor
  · intro s ls x y h hscan hI hT hWne hIP hP hA hWx hWy hnum
    have hxmem : x ∈ scanList s := by
      rw [hscan]
      exact List.mem_cons_self x [y]
    have hymem : y ∈ scanList s := by
      rw [hscan]
      exact List.mem_cons_of_mem x (List.mem_cons_self y [])
    have hxfail : x ≠ BLOCK_FAIL := by
      obtain ⟨k, _, _, hk⟩ := (mem_scanList h).mp hxmem
      exact h.mem_ne_fail hk
    have hyfail : y ≠ BLOCK_FAIL := by
      obtain ⟨k, _, _, hk⟩ := (mem_scanList h).mp hymem
      exact h.mem_ne_fail hk
    have hanti1 : (s.blocks y).eraseCnt < (s.blocks x).eraseCnt →
        calculateCatScore s x ≤ calculateCatScore s y := fun hW =>
      catScore_wear_antitone hI hT hW hIP hP hA hWx hnum
    have hanti2 : (s.blocks x).eraseCnt < (s.blocks y).eraseCnt →
        calculateCatScore s y ≤ calculateCatScore s x := fun hW =>
      catScore_wear_antitone hI.symm hT.symm hW (hI ▸ hIP) hP (hT ▸ hA) hWy
        (by rw [hI, hT]; exact hnum)
    have hget : ∀ b : Nat, b ≠ BLOCK_FAIL →
        bestScan (calculateCatScore s) (scanList s) = (b, calculateCatScore s b) →
        (catGetFromGcVictimList s).1 = b := by
      intro b hbf hbb
      rw [catGet_eq_scanSelect]
      simp only [scanSelect]
      rw [hbb]
      simp [hbf]
    refine ⟨hanti1, hanti2, ?_, ?_, ?_⟩
    · intro hne
      rcases Nat.lt_or_ge (s.blocks x).eraseCnt (s.blocks y).eraseCnt with hlt | hge
      · have hyx : calculateCatScore s y < calculateCatScore s x :=
          lt_of_le_of_ne (hanti2 hlt) (fun e => hne e.symm)
        have hbest : bestScan (calculateCatScore s) (scanList s)
            = (x, calculateCatScore s x) := by
          rw [hscan]
          unfold bestScan
          rw [List.foldl_cons, List.foldl_cons, List.foldl_nil]
          rw [if_pos (show calculateCatScore s x > 0 by omega)]
          rw [if_neg (show ¬ calculateCatScore s y > calculateCatScore s x by omega)]
        have hres : (catGetFromGcVictimList s).1 = x := hget x hxfail hbest
        refine ⟨Or.inl hres, ?_⟩
        rw [hres, min_eq_left (le_of_lt hlt)]
      · have hlt' : (s.blocks y).eraseCnt < (s.blocks x).eraseCnt :=
          lt_of_le_of_ne hge (fun e => hWne e.symm)
        have hxy : calculateCatScore s x < calculateCatScore s y :=
          lt_of_le_of_ne (hanti1 hlt') hne
        have hbest : bestScan (calculateCatScore s) (scanList s)
            = (y, calculateCatScore s y) := by
          rw [hscan]
          unfold bestScan
          rw [List.foldl_cons, List.foldl_cons, List.foldl_nil]
          by_cases h0 : calculateCatScore s x > 0
          · rw [if_pos h0]
            rw [if_pos (show calculateCatScore s y > calculateCatScore s x from hxy)]
          · rw [if_neg h0]
            rw [if_pos (show calculateCatScore s y > 0 by omega)]
        have hres : (catGetFromGcVictimList s).1 = y := hget y hyfail hbest
        refine ⟨Or.inr hres, ?_⟩
        rw [hres, min_eq_right (le_of_lt hlt')]
    · intro heq hpos
      have hbest : bestScan (calculateCatScore s) (scanList s)
          = (x, calculateCatScore s x) := by
        rw [hscan]
        unfold bestScan
        rw [List.foldl_cons, List.foldl_cons, List.foldl_nil]
        rw [if_pos (show calculateCatScore s x > 0 from hpos)]
        rw [if_neg (show ¬ calculateCatScore s y > calculateCatScore s x by omega)]
      exact hget x hxfail hbest
    · intro h0x h0y
      have hz : ∀ b ∈ scanList s, calculateCatScore s b = 0 := by
        rw [hscan]
        intro b hb
        rcases List.mem_cons.mp hb with rfl | hb2
        · exact h0x
        · rcases List.mem_cons.mp hb2 with rfl | hb3
          · exact h0y
          · exact absurd hb3 (List.not_mem_nil b)
      rw [catGet_eq_scanSelect, scanSelect_all_zero _ hz]
  · exact ⟨by decide, by decide, by decide, by decide, by decide, by decide,
      by decide⟩

/-- C6 (witness): the amended theorem at the spec's wear-spread scenario (two
blocks with `I = 3`, age 10, wear 1000 vs 10, truncated scores 0 vs 2): the
selection returns one of the two candidates, and the returned block's wear
count is the smaller of the two. -/
theorem claim_C6_witness :
    ((catGetFromGcVictimList
        (putToGcVictimList (putToGcVictimList wBase6 0 3) 1 3)).1 = 0 ∨
      (catGetFromGcVictimList
        (putToGcVictimList (putToGcVictimList wBase6 0 3) 1 3)).1 = 1) ∧
    ((putToGcVictimList (putToGcVictimList wBase6 0 3) 1 3).blocks
        (catGetFromGcVictimList
          (putToGcVictimList (putToGcVictimList wBase6 0 3) 1 3)).1).eraseCnt
      = min
          ((putToGcVictimList (putToGcVictimList wBase6 0 3) 1 3).blocks 0).eraseCnt
          ((putToGcVictimList (putToGcVictimList wBase6 0 3) 1 3).blocks 1).eraseCnt := by
  have h1 : Inv (listInsert wBase6 0 3)
      (Function.update (fun _ => ([] : List Nat)) 3
        ((fun _ => ([] : List Nat)) 3 ++ [0])) :=
    listInsert_preserves wBase6_inv (fun k => List.not_mem_nil 0) (by decide) rfl
      (by decide)
  have hnm : ∀ k, 1 ∉ (Function.update (fun _ => ([] : List Nat)) 3
      ((fun _ => ([] : List Nat)) 3 ++ [0])) k := by
    intro k
    by_cases hk : k = 3
    · subst hk
      rw [Function.update_same]
      decide
    · rw [Function.update_noteq hk]
      exact List.not_mem_nil 1
  have h2 : Inv (listInsert (putToGcVictimList wBase6 0 3) 1 3)
      (Function.update
        (Function.update (fun _ => ([] : List Nat)) 3
          ((fun _ => ([] : List Nat)) 3 ++ [0])) 3
        ((Function.update (fun _ => ([] : List Nat)) 3
          ((fun _ => ([] : List Nat)) 3 ++ [0])) 3 ++ [1])) :=
    listInsert_preserves h1 hnm (by decide) (by decide) (by decide)
  exact (claim_C6_amended.1 (putToGcVictimList (putToGcVictimList wBase6 0 3) 1 3)
    _ 0 1 h2 (by decide) (by decide) (by decide) (by decide) (by decide)
    (by decide) (by decide) (by decide) (by decide) (by decide)).2.2.1 (by decide)

theorem get?_append_last {α : Type} (l : List α) (e : α) :
    (l ++ [e]).get? ((l ++ [e]).length - 1) = some e := by
  have hlen : (l ++ [e]).length = l.length + 1 := by
    rw [List.length_append]
    rfl
  rw [hlen]
  have : l.length + 1 - 1 = l.length := by omega
  rw [this, List.get?_append_right le_rfl]
  simp

/-- C7 (counterexample): the activity tick is a 32-bit counter; at
`tick = 2^32 − 1`, a `Put` with a positive invalid count wraps it to 0 — the
tick DECREASES, so it does not "never decrease" and the step is not an
increase by exactly 1. -/
theorem claim_C7_counterexample :
    cexC7state.gcActivityTick = U32 - 1 ∧
    (cbPutToGcVictimList cexC7state 0 1).gcActivityTick < cexC7state.gcActivityTick ∧
    (catPutToGcVictimList cexC7state 0 1).gcActivityTick < cexC7state.gcActivityTick := by
  refine ⟨by decide, by decide, by decide⟩

/-- C7 (amended): a `Put` with positive invalid count sets the tick to
`(tick + 1) mod 2^32` in both clock-bearing builds — an increase by exactly 1
whenever `tick + 1 < 2^32` — and no other operation (either build's `Put`
with count 0, the Greedy build's `Put`, unlink, detach, or any of the three
selections) changes the tick. -/
theorem claim_C7_amended : ∀ (s : GcState) (b cnt : Nat),
    (cnt ≠ 0 →
      (cbPutToGcVictimList s b cnt).gcActivityTick = (s.gcActivityTick + 1) % U32 ∧
      (catPutToGcVictimList s b cnt).gcActivityTick = (s.gcActivityTick + 1) % U32) ∧
    (cnt ≠ 0 → s.gcActivityTick + 1 < U32 →
      (cbPutToGcVictimList s b cnt).gcActivityTick = s.gcActivityTick + 1 ∧
      (catPutToGcVictimList s b cnt).gcActivityTick = s.gcActivityTick + 1) ∧
    (cbPutToGcVictimList s b 0).gcActivityTick = s.gcActivityTick ∧
    (catPutToGcVictimList s b 0).gcActivityTick = s.gcActivityTick ∧
    (putToGcVictimList s b cnt).gcActivityTick = s.gcActivityTick ∧
    (selectiveGetFromGcVictimList s b).gcActivityTick = s.gcActivityTick ∧
    (detachBlockFromGcList s b).gcActivityTick = s.gcActivityTick ∧
    (getFromGcVictimList s).2.1.gcActivityTick = s.gcActivityTick ∧
    (cbGetFromGcVictimList s).2.1.gcActivityTick = s.gcActivityTick ∧
    (catGetFromGcVictimList s).2.1.gcActivityTick = s.gcActivityTick := by
  intro s b cnt
  have hcb : ∀ c, c ≠ 0 →
      (cbPutToGcVictimList s b c).gcActivityTick = (s.gcActivityTick + 1) % U32 := by
    intro c hc
    simp only [cbPutToGcVictimList]
    rw [if_pos hc, listInsert_tick]
  have hcat : ∀ c, c ≠ 0 →
      (catPutToGcVictimList s b c).gcActivityTick = (s.gcActivityTick + 1) % U32 := by
    intro c hc
    simp only [catPutToGcVictimList]
    rw [if_pos hc, listInsert_tick]
  refine ⟨fun hc => ⟨hcb cnt hc, hcat cnt hc⟩, ?_, ?_, ?_, ?_, ?_, ?_, ?_, ?_, ?_⟩
  · intro hc hlt
    rw [hcb cnt hc, hcat cnt hc, Nat.mod_eq_of_lt hlt]
    exact ⟨rfl, rfl⟩
  · simp only [cbPutToGcVictimList]
    rw [if_neg (by simp), listInsert_tick]
  · simp only [catPutToGcVictimList]
    rw [if_neg (by simp), listInsert_tick]
  · exact listInsert_tick s b cnt
  · exact selectiveGet_tick s b
  · exact detach_tick s b
  · exact greedyGetAux_tick s s.slicesPerBlock
  · rw [cbGet_eq_scanSelect]
    exact scanSelect_tick s _
  · rw [catGet_eq_scanSelect]
    exact scanSelect_tick s _

/-- C7 (witness): the amended theorem at the concrete empty die: a `Put` with
count 2 advances the tick from 0 to 1. -/
theorem claim_C7_witness :
    (cbPutToGcVictimList wBase 0 2).gcActivityTick = (wBase.gcActivityTick + 1) % U32 ∧
    (cbPutToGcVictimList wBase 0 2).gcActivityTick = wBase.gcActivityTick + 1 := by
  have h := claim_C7_amended wBase 0 2
  exact ⟨(h.1 (by decide)).1, (h.2.1 (by decide) (by decide)).1⟩

/-- C8 (counterexample): the public unlink `SelectiveGetFromGcVictimList`
does NOT clear the detached block's own links: unlinking the interior block 1
of the chain `0 – 1 – 2` leaves its `prevBlock = 0` and `nextBlock = 2`, not
`BLOCK_NONE`. -/
theorem claim_C8_counterexample :
    cexC8state.headBlock 2 = 0 ∧
    (cexC8state.blocks 1).invalidSliceCnt = 2 ∧
    ((selectiveGetFromGcVictimList cexC8state 1).blocks 1).prevBlock = 0 ∧
    ((selectiveGetFromGcVictimList cexC8state 1).blocks 1).nextBlock = 2 ∧
    ¬(((selectiveGetFromGcVictimList cexC8state 1).blocks 1).prevBlock = BLOCK_NONE ∧
      ((selectiveGetFromGcVictimList cexC8state 1).blocks 1).nextBlock = BLOCK_NONE) := by
  refine ⟨by decide, by decide, by decide, by decide, by decide⟩

/-- C8 (amended): it is the Cost-Benefit/CAT wrapper `DetachBlockFromGcList`
— not the public `SelectiveGetFromGcVictimList` — that leaves the detached
block's own `prevBlock` and `nextBlock` at `BLOCK_NONE`, for every state and
block. -/
theorem claim_C8_amended : ∀ (s : GcState) (b : Nat),
    ((detachBlockFromGcList s b).blocks b).prevBlock = BLOCK_NONE ∧
    ((detachBlockFromGcList s b).blocks b).nextBlock = BLOCK_NONE := by
  intro s b
  unfold detachBlockFromGcList
  constructor <;> simp

/-- C9 (counterexample): in the concrete one-live-page run, the WRITE is
enqueued at position 7 and the next event is the ERASE — the two mapping
stores sit at positions 5 and 6, BEFORE the WRITE enqueue — so the claimed
ordering (mapping updates immediately after the WRITE) is false. -/
theorem claim_C9_counterexample :
    ((garbageCollectionMigrate cexC9env 5 3 cexC9maps).trace).get? 7
      = some (Ev.enqWrite 100 7) ∧
    ((garbageCollectionMigrate cexC9env 5 3 cexC9maps).trace).get? 5
      = some (Ev.mapL2V 7 100) ∧
    ((garbageCollectionMigrate cexC9env 5 3 cexC9maps).trace).get? 8
      = some (Ev.eraseBlk 5) ∧
    ¬ claimC9Ordering (garbageCollectionMigrate cexC9env 5 3 cexC9maps).trace := by
  refine ⟨by decide, by decide, by decide, ?_⟩
  intro hcl
  have h := hcl.2.2 7 100 7 (by decide)
  exact absurd h.1 (by decide)

/-- C9 (amended): the trace of one `GarbageCollection` invocation is a
concatenation of per-live-page blocks
`[slot, buf, READ, slot, buf, mapL2V, mapV2L, WRITE]` followed by one final
ERASE; hence each WRITE is enqueued after its slice's READ, the two mapping
stores are performed immediately BEFORE (not after) enqueuing that slice's
WRITE, and the ERASE comes after every WRITE enqueue. -/
theorem claim_C9_amended : ∀ (env : GcEnv) (victimBlockNo victimInvalidCnt : Nat)
    (maps : MapState),
    (∃ segs : List (List Ev),
      (garbageCollectionMigrate env victimBlockNo victimInvalidCnt maps).trace
        = segs.flatten ++ [Ev.eraseBlk victimBlockNo] ∧
      ∀ seg ∈ segs, ∃ v L d, seg = pageEvents v L d) ∧
    ((garbageCollectionMigrate env victimBlockNo victimInvalidCnt maps).trace).get?
        (((garbageCollectionMigrate env victimBlockNo victimInvalidCnt maps).trace).length - 1)
      = some (Ev.eraseBlk victimBlockNo) ∧
    WriteShape (garbageCollectionMigrate env victimBlockNo victimInvalidCnt maps).trace ∧
    (∀ i d L,
      ((garbageCollectionMigrate env victimBlockNo victimInvalidCnt maps).trace).get? i
        = some (Ev.enqWrite d L) →
      i < ((garbageCollectionMigrate env victimBlockNo victimInvalidCnt maps).trace).length - 1) := by
  intro env victimBlockNo victimInvalidCnt maps
  have hshape : ∃ segs : List (List Ev),
      (garbageCollectionMigrate env victimBlockNo victimInvalidCnt maps).trace
        = segs.flatten ++ [Ev.eraseBlk victimBlockNo] ∧
      ∀ seg ∈ segs, ∃ v L d, seg = pageEvents v L d := by
    simp only [garbageCollectionMigrate]
    by_cases hc : victimInvalidCnt ≠ env.slicesPerBlock
    · rw [if_pos hc]
      obtain ⟨segs, h1, h2⟩ :=
        gcMigrateUpTo_shape env victimBlockNo maps env.pagesPerBlock
      exact ⟨segs, by rw [h1], h2⟩
    · rw [if_neg hc]
      exact ⟨[], rfl, by simp⟩
  obtain ⟨segs, htr, hsegs⟩ := hshape
  have herase : ((garbageCollectionMigrate env victimBlockNo victimInvalidCnt maps).trace).get?
      (((garbageCollectionMigrate env victimBlockNo victimInvalidCnt maps).trace).length - 1)
      = some (Ev.eraseBlk victimBlockNo) := by
    rw [htr]
    exact get?_append_last _ _
  refine ⟨⟨segs, htr, hsegs⟩, herase, ?_, ?_⟩
  · rw [htr]
    refine writeShape_join hsegs (writeShape_of_no_writes ?_)
    intro e he
    rw [List.mem_singleton] at he
    subst he
    rfl
  · intro i d L hw
    obtain ⟨hi, _⟩ := List.get?_eq_some.mp hw
    by_contra hge
    push_neg at hge
    have hieq : i = ((garbageCollectionMigrate env victimBlockNo victimInvalidCnt
        maps).trace).length - 1 := by omega
    rw [hieq, herase] at hw
    simp at hw

/-- C9 (witness): the amended theorem at the concrete one-live-page run: the
final event of the trace is the erase of the victim. -/
theorem claim_C9_witness :
    ((garbageCollectionMigrate cexC9env 5 3 cexC9maps).trace).get?
        (((garbageCollectionMigrate cexC9env 5 3 cexC9maps).trace).length - 1)
      = some (Ev.eraseBlk 5) :=
  (claim_C9_amended cexC9env 5 3 cexC9maps).2.1

/-- C10: on a well-formed die, the Greedy pop leaves the popped block's own
record untouched: its `nextBlock` still holds the stale link to the new head
of the bucket (a block that remains in the list when the bucket held at
least two members) while its `prevBlock` stays `BLOCK_NONE`; a later
`PutToGcVictimList` on that block (any build) overwrites the stale
`nextBlock` with `BLOCK_NONE`, and an unlink of a DIFFERENT indexed block
never writes the detached block's record. -/
theorem claim_C10 :
    (∀ (s : GcState) (ls : Nat → List Nat), Inv s ls →
      (∃ j, 1 ≤ j ∧ j ≤ s.slicesPerBlock ∧ ls j ≠ []) →
      ∃ kStar tl, 1 ≤ kStar ∧ kStar ≤ s.slicesPerBlock ∧
        ls kStar = (getFromGcVictimList s).1 :: tl ∧
        (getFromGcVictimList s).2.2 = false ∧
        (getFromGcVictimList s).2.1.blocks (getFromGcVictimList s).1
          = s.blocks (getFromGcVictimList s).1 ∧
        (s.blocks (getFromGcVictimList s).1).prevBlock = BLOCK_NONE ∧
        (s.blocks (getFromGcVictimList s).1).nextBlock = tl.headD BLOCK_NONE ∧
        (tl ≠ [] → tl.headD BLOCK_NONE ∈ tl)) ∧
    (∀ (t : GcState) (x c : Nat), t.tailBlock c ≠ x →
      ((putToGcVictimList t x c).blocks x).nextBlock = BLOCK_NONE ∧
      ((cbPutToGcVictimList t x c).blocks x).nextBlock = BLOCK_NONE ∧
      ((catPutToGcVictimList t x c).blocks x).nextBlock = BLOCK_NONE) ∧
    (∀ (t : GcState) (lt : Nat → List Nat) (x c k₂ : Nat), Inv t lt →
      (∀ k, x ∉ lt k) → x ≠ BLOCK_NONE → c ≠ x → k₂ ≤ t.slicesPerBlock →
      c ∈ lt k₂ →
      (selectiveGetFromGcVictimList t c).blocks x = t.blocks x) := by
  refine ⟨?_, ?_, ?_⟩
  · intro s ls h hex
    obtain ⟨kStar, tl, a1, a2, a3, a4, a5, a6, a7, _⟩ :=
      greedyGetAux_found h s.slicesPerBlock le_rfl hex
    exact ⟨kStar, tl, a1, a2, a3, a4, a5, a6, a7,
      fun hne => headD_ne_nil hne BLOCK_NONE⟩
  · intro t x c ht
    exact ⟨listInsert_next_self ht, cbPut_next_self ht, catPut_next_self ht⟩
  · intro t lt x c k₂ h hx hxn hcx hk₂ hmem
    obtain ⟨l₁, l₂, hdec⟩ := List.append_of_mem hmem
    have hrep := h.rep k₂ hk₂
    obtain ⟨hprev, hnext⟩ := member_fields hrep hdec
    have hmem₁ : ∀ z ∈ l₁, z ∈ lt k₂ := fun z hz => hdec ▸ List.mem_append_left _ hz
    have hmem₂ : ∀ z ∈ l₂, z ∈ lt k₂ :=
      fun z hz => hdec ▸ List.mem_append_right _ (List.mem_cons_of_mem c hz)
    have hpx : (t.blocks c).prevBlock ≠ x := by
      rw [hprev]
      rcases List.eq_nil_or_concat l₁ with h0 | ⟨l₀, p, h0⟩
      · subst h0
        exact fun he => hxn he.symm
      · rw [List.concat_eq_append] at h0
        subst h0
        rw [getLastD_concat']
        intro he
        exact hx k₂ (he ▸ hmem₁ p (List.mem_append_right l₀ (List.mem_cons_self p [])))
    have hnx : (t.blocks c).nextBlock ≠ x := by
      rw [hnext]
      cases l₂ with
      | nil => exact fun he => hxn he.symm
      | cons n l₂' =>
        intro he
        exact hx k₂ (he ▸ hmem₂ n (List.mem_cons_self n l₂'))
    simp only [selectiveGetFromGcVictimList]
    split
    · simp [Ne.symm hnx, Ne.symm hpx]
    · split
      · simp [Ne.symm hpx]
      · split
        · simp [Ne.symm hnx]
        · rfl

/-- C10 (witness): popping from the concrete die whose bucket 2 holds blocks
`[0, 1]` succeeds without asserting. -/
theorem claim_C10_witness :
    (getFromGcVictimList (putToGcVictimList (putToGcVictimList wBase 0 2) 1 2)).2.2
      = false := by
  have h1 : Inv (listInsert wBase 0 2)
      (Function.update (fun _ => ([] : List Nat)) 2
        ((fun _ => ([] : List Nat)) 2 ++ [0])) :=
    listInsert_preserves wBase_inv (fun k => List.not_mem_nil 0) (by decide) rfl
      (by decide)
  have hnm : ∀ k, 1 ∉ (Function.update (fun _ => ([] : List Nat)) 2
      ((fun _ => ([] : List Nat)) 2 ++ [0])) k := by
    intro k
    by_cases hk : k = 2
    · subst hk
      rw [Function.update_same]
      decide
    · rw [Function.update_noteq hk]
      exact List.not_mem_nil 1
  have h2 : Inv (listInsert (putToGcVictimList wBase 0 2) 1 2)
      (Function.update
        (Function.update (fun _ => ([] : List Nat)) 2
          ((fun _ => ([] : List Nat)) 2 ++ [0])) 2
        ((Function.update (fun _ => ([] : List Nat)) 2
          ((fun _ => ([] : List Nat)) 2 ++ [0])) 2 ++ [1])) :=
    listInsert_preserves h1 hnm (by decide) (by decide) (by decide)
  obtain ⟨kStar, tl, _, _, _, a4, _, _, _, _⟩ :=
    claim_C10.1 (putToGcVictimList (putToGcVictimList wBase 0 2) 1 2) _ h2
      ⟨2, by decide, by decide, by decide⟩
  exact a4

end GcModel
